import Mathlib

/-!
Verification of the minimongo query-processing utilities (`src/utils.ts`).

The development shallowly embeds the functions of `src/utils.ts` over a
JSON-like value type `Val`.  JavaScript numbers are modelled as rationals
(no floating point enters any claim), JavaScript `undefined` is modelled
as `Option.none`, and property access on non-objects yields `none`
(JavaScript would yield `undefined`, or throw only on `null`/`undefined`
receivers; the places where that matters are noted locally).

The external turf.js geometry primitives (`distance`,
`nearestPointOnLine`, `booleanPointInPolygon`, `intersect`,
`booleanCrosses`, `booleanWithin`) are out of the repository; they are
modelled as an abstract bundle of pure functions (`GeoExt`), exactly the
"pure function contract" boundary the specification draws around them.

`compileDocumentSelector` and `compileSort` live in `src/selector.ts`,
which is not part of the sources; they are modelled from the spec where
marked.
-/

/-- JSON-like runtime values of the embedded JavaScript. -/
inductive Val where
  | null
  | bool (b : Bool)
  | num (q : ℚ)
  | str (s : String)
  | arr (xs : List Val)
  | obj (fs : List (String × Val))

mutual

/-- Structural (value) equality test on `Val`. -/
def Val.beq : Val → Val → Bool
  | .null, .null => true
  | .bool a, .bool b => decide (a = b)
  | .num a, .num b => decide (a = b)
  | .str a, .str b => decide (a = b)
  | .arr a, .arr b => Val.beqList a b
  | .obj a, .obj b => Val.beqFields a b
  | _, _ => false
termination_by structural a => a

def Val.beqList : List Val → List Val → Bool
  | [], [] => true
  | x :: xs, y :: ys => Val.beq x y && Val.beqList xs ys
  | _, _ => false
termination_by structural a => a

def Val.beqFields : List (String × Val) → List (String × Val) → Bool
  | [], [] => true
  | (k, v) :: xs, (k', v') :: ys => decide (k = k') && Val.beq v v' && Val.beqFields xs ys
  | _, _ => false
termination_by structural a => a

end

mutual

theorem Val.eq_of_beq : ∀ {a b : Val}, Val.beq a b = true → a = b
  | .null, .null, _ => rfl
  | .bool _, .bool _, h => congrArg Val.bool (of_decide_eq_true h)
  | .num _, .num _, h => congrArg Val.num (of_decide_eq_true h)
  | .str _, .str _, h => congrArg Val.str (of_decide_eq_true h)
  | .arr _, .arr _, h => congrArg Val.arr (Val.eqList_of_beqList h)
  | .obj _, .obj _, h => congrArg Val.obj (Val.eqFields_of_beqFields h)
  | .null, .bool _, h => Bool.noConfusion h
  | .null, .num _, h => Bool.noConfusion h
  | .null, .str _, h => Bool.noConfusion h
  | .null, .arr _, h => Bool.noConfusion h
  | .null, .obj _, h => Bool.noConfusion h
  | .bool _, .null, h => Bool.noConfusion h
  | .bool _, .num _, h => Bool.noConfusion h
  | .bool _, .str _, h => Bool.noConfusion h
  | .bool _, .arr _, h => Bool.noConfusion h
  | .bool _, .obj _, h => Bool.noConfusion h
  | .num _, .null, h => Bool.noConfusion h
  | .num _, .bool _, h => Bool.noConfusion h
  | .num _, .str _, h => Bool.noConfusion h
  | .num _, .arr _, h => Bool.noConfusion h
  | .num _, .obj _, h => Bool.noConfusion h
  | .str _, .null, h => Bool.noConfusion h
  | .str _, .bool _, h => Bool.noConfusion h
  | .str _, .num _, h => Bool.noConfusion h
  | .str _, .arr _, h => Bool.noConfusion h
  | .str _, .obj _, h => Bool.noConfusion h
  | .arr _, .null, h => Bool.noConfusion h
  | .arr _, .bool _, h => Bool.noConfusion h
  | .arr _, .num _, h => Bool.noConfusion h
  | .arr _, .str _, h => Bool.noConfusion h
  | .arr _, .obj _, h => Bool.noConfusion h
  | .obj _, .null, h => Bool.noConfusion h
  | .obj _, .bool _, h => Bool.noConfusion h
  | .obj _, .num _, h => Bool.noConfusion h
  | .obj _, .str _, h => Bool.noConfusion h
  | .obj _, .arr _, h => Bool.noConfusion h
termination_by structural a => a

theorem Val.eqList_of_beqList : ∀ {a b : List Val}, Val.beqList a b = true → a = b
  | [], [], _ => rfl
  | [], _ :: _, h => Bool.noConfusion h
  | _ :: _, [], h => Bool.noConfusion h
  | x :: xs, y :: ys, h =>
    have hp : Val.beq x y = true ∧ Val.beqList xs ys = true := (Bool.and_eq_true _ _) ▸ h
    congrArg₂ List.cons (Val.eq_of_beq hp.1) (Val.eqList_of_beqList hp.2)
termination_by structural a => a

theorem Val.eqFields_of_beqFields : ∀ {a b : List (String × Val)}, Val.beqFields a b = true → a = b
  | [], [], _ => rfl
  | [], _ :: _, h => Bool.noConfusion h
  | _ :: _, [], h => Bool.noConfusion h
  | (k, v) :: xs, (k', v') :: ys, h =>
    have hp : (decide (k = k') && Val.beq v v') = true ∧ Val.beqFields xs ys = true :=
      (Bool.and_eq_true _ _) ▸ h
    have hp2 : decide (k = k') = true ∧ Val.beq v v' = true := (Bool.and_eq_true _ _) ▸ hp.1
    have hk : k = k' := of_decide_eq_true hp2.1
    have hv : v = v' := Val.eq_of_beq hp2.2
    have ht : xs = ys := Val.eqFields_of_beqFields hp.2
    by rw [hk, hv, ht]
termination_by structural a => a

end

mutual

theorem Val.beq_refl : ∀ a : Val, Val.beq a a = true
  | .null => rfl
  | .bool _ => decide_eq_true rfl
  | .num _ => decide_eq_true rfl
  | .str _ => decide_eq_true rfl
  | .arr a => Val.beqList_refl a
  | .obj a => Val.beqFields_refl a
termination_by structural a => a

theorem Val.beqList_refl : ∀ a : List Val, Val.beqList a a = true
  | [] => rfl
  | x :: xs =>
    (Bool.and_eq_true _ _) ▸ (⟨Val.beq_refl x, Val.beqList_refl xs⟩ : _ ∧ _)
termination_by structural a => a

theorem Val.beqFields_refl : ∀ a : List (String × Val), Val.beqFields a a = true
  | [] => rfl
  | (_, v) :: xs =>
    (Bool.and_eq_true _ _) ▸
      (⟨(Bool.and_eq_true _ _) ▸ (⟨decide_eq_true rfl, Val.beq_refl v⟩ : _ ∧ _),
        Val.beqFields_refl xs⟩ : _ ∧ _)
termination_by structural a => a

end

instance : DecidableEq Val := fun a b =>
  if h : Val.beq a b = true then isTrue (Val.eq_of_beq h)
  else isFalse (fun he => h (he ▸ Val.beq_refl a))

deriving instance DecidableEq for Except

/-- JavaScript truthiness of a value. -/
def truthy : Val → Bool
  | .null => false
  | .bool b => b
  | .num q => decide (q ≠ 0)
  | .str s => decide (s ≠ "")
  | .arr _ => true
  | .obj _ => true

/-- JavaScript truthiness where `none` models `undefined`. -/
def truthyO : Option Val → Bool
  | none => false
  | some v => truthy v

/-- First-match association lookup, as JavaScript property access on an
object literal (keys are unique in practice). -/
def lookupField : List (String × Val) → String → Option Val
  | [], _ => none
  | (k', w) :: rest, k => if k' = k then some w else lookupField rest k

/-- `v[k]`: property access.  On non-objects this is `none`
(JavaScript yields `undefined` for every receiver except `null` and
`undefined`, which throw; the call sites below only dereference values
they have checked). -/
def getField? (v : Val) (k : String) : Option Val :=
  match v with
  | .obj fs => lookupField fs k
  | _ => none

/-- Replace the value at `k` (in place) or append the binding, as
JavaScript `v[k] = w` on an object; assignment to a non-object receiver
is silently discarded (non-strict mode). -/
def setAssoc : List (String × Val) → String → Val → List (String × Val)
  | [], k, w => [(k, w)]
  | (k', v') :: rest, k, w =>
    if k' = k then (k', w) :: rest else (k', v') :: setAssoc rest k w

def setField (v : Val) (k : String) (w : Val) : Val :=
  match v with
  | .obj fs => .obj (setAssoc fs k w)
  | _ => v

/-- `delete v[k]`, a no-op on non-objects. -/
def delField (v : Val) (k : String) : Val :=
  match v with
  | .obj fs => .obj (fs.filter (fun kv => kv.1 ≠ k))
  | _ => v

/-- `"a.b.c".split "."` on the character level (kernel-reducible). -/
def splitChars (sep : Char) : List Char → List Char → List String
  | [], acc => [String.mk acc.reverse]
  | c :: cs, acc =>
    if c = sep then String.mk acc.reverse :: splitChars sep cs []
    else splitChars sep cs (c :: acc)

/-- `field.split(".")` from the projection and sort code. -/
def splitPath (s : String) : List String :=
  splitChars '.' s.data []

/-! ### Comparator machinery

JavaScript `Array.prototype.sort` (ES2019+) and lodash `sortBy` are
stable sorts driven by a comparator.  Both are modelled by the stable
insertion sort `sortByLe`; the lawfulness interface below supplies the
transitivity/totality facts the sortedness lemmas need. -/

/-- The three-way comparison induced by a linear order. -/
def cmpOfLt {α : Type} [LinearOrder α] (a b : α) : Ordering :=
  if a < b then .lt else if b < a then .gt else .eq

/-- A comparator whose results behave like a total preorder. -/
structure IsLawfulCmp {α : Type} (c : α → α → Ordering) : Prop where
  swapEq : ∀ a b, c a b = (c b a).swap
  ltTrans : ∀ a b x, c a b = .lt → c b x = .lt → c a x = .lt
  eqSubst : ∀ a b x, c a b = .eq → c a x = c b x

theorem swap_eq_lt {o : Ordering} : o.swap = .lt ↔ o = .gt := by cases o <;> simp [Ordering.swap]

theorem swap_eq_gt {o : Ordering} : o.swap = .gt ↔ o = .lt := by cases o <;> simp [Ordering.swap]

theorem swap_eq_eq {o : Ordering} : o.swap = .eq ↔ o = .eq := by cases o <;> simp [Ordering.swap]

theorem IsLawfulCmp.eqSymm {α : Type} {c : α → α → Ordering} (hc : IsLawfulCmp c)
    {a b : α} (h : c a b = .eq) : c b a = .eq := by
  have hs := hc.swapEq a b
  rw [h] at hs
  exact swap_eq_eq.mp hs.symm

theorem IsLawfulCmp.gtOfLt {α : Type} {c : α → α → Ordering} (hc : IsLawfulCmp c)
    {a b : α} (h : c a b = .lt) : c b a = .gt := by
  have hs := hc.swapEq a b
  rw [h] at hs
  exact swap_eq_lt.mp hs.symm

theorem IsLawfulCmp.ltOfGt {α : Type} {c : α → α → Ordering} (hc : IsLawfulCmp c)
    {a b : α} (h : c a b = .gt) : c b a = .lt := by
  have hs := hc.swapEq a b
  rw [h] at hs
  exact swap_eq_gt.mp hs.symm

theorem IsLawfulCmp.eqSubstR {α : Type} {c : α → α → Ordering} (hc : IsLawfulCmp c)
    {a b : α} (h : c a b = .eq) (x : α) : c x a = c x b := by
  rw [hc.swapEq x a, hc.swapEq x b, hc.eqSubst a b x h]

theorem cmpOfLt_eq_lt {α : Type} [LinearOrder α] {a b : α} : cmpOfLt a b = .lt ↔ a < b := by
  unfold cmpOfLt
  rcases lt_trichotomy a b with h | h | h
  · simp [h]
  · subst h
    simp [lt_irrefl]
  · rw [if_neg (lt_asymm h), if_pos h]
    simp [lt_asymm h]

theorem cmpOfLt_eq_gt {α : Type} [LinearOrder α] {a b : α} : cmpOfLt a b = .gt ↔ b < a := by
  unfold cmpOfLt
  rcases lt_trichotomy a b with h | h | h
  · rw [if_pos h]
    simp [lt_asymm h]
  · subst h
    simp [lt_irrefl]
  · rw [if_neg (lt_asymm h), if_pos h]
    simp [h]

theorem cmpOfLt_eq_eq {α : Type} [LinearOrder α] {a b : α} : cmpOfLt a b = .eq ↔ a = b := by
  unfold cmpOfLt
  rcases lt_trichotomy a b with h | h | h
  · rw [if_pos h]
    simp [ne_of_lt h]
  · subst h
    simp [lt_irrefl]
  · rw [if_neg (lt_asymm h), if_pos h]
    simp [(ne_of_lt h).symm]

theorem lawful_cmpOfLt {α : Type} [LinearOrder α] : IsLawfulCmp (cmpOfLt (α := α)) := by
  constructor
  · intro a b
    rcases lt_trichotomy a b with h | h | h
    · rw [cmpOfLt_eq_lt.mpr h, cmpOfLt_eq_gt.mpr h]
      rfl
    · rw [cmpOfLt_eq_eq.mpr h, cmpOfLt_eq_eq.mpr h.symm]
      rfl
    · rw [cmpOfLt_eq_gt.mpr h, cmpOfLt_eq_lt.mpr h]
      rfl
  · intro a b x hab hbx
    exact cmpOfLt_eq_lt.mpr (lt_trans (cmpOfLt_eq_lt.mp hab) (cmpOfLt_eq_lt.mp hbx))
  · intro a b x hab
    rw [cmpOfLt_eq_eq.mp hab]

/-- Comparator precomposed with a key function stays lawful. -/
theorem lawful_comap {α β : Type} {c : β → β → Ordering} (f : α → β)
    (hc : IsLawfulCmp c) : IsLawfulCmp (fun a b => c (f a) (f b)) :=
  ⟨fun a b => hc.swapEq (f a) (f b),
   fun a b x => hc.ltTrans (f a) (f b) (f x),
   fun a b x => hc.eqSubst (f a) (f b) (f x)⟩

theorem IsLawfulCmp.gtTrans {α : Type} {c : α → α → Ordering} (hc : IsLawfulCmp c)
    {a b x : α} (hab : c a b = .gt) (hbx : c b x = .gt) : c a x = .gt :=
  hc.gtOfLt (hc.ltTrans x b a (hc.ltOfGt hbx) (hc.ltOfGt hab))

/-- Swapping a lawful comparator (descending direction) stays lawful. -/
theorem lawful_swap {α : Type} {c : α → α → Ordering} (hc : IsLawfulCmp c) :
    IsLawfulCmp (fun a b => (c a b).swap) := by
  constructor
  · intro a b
    rw [hc.swapEq a b]
  · intro a b x hab hbx
    exact swap_eq_lt.mpr (hc.gtTrans (swap_eq_lt.mp hab) (swap_eq_lt.mp hbx))
  · intro a b x hab
    rw [hc.eqSubst a b x (swap_eq_eq.mp hab)]

/-- Lexicographic combination of two lawful comparators is lawful. -/
theorem lawful_then {α : Type} {c d : α → α → Ordering}
    (hc : IsLawfulCmp c) (hd : IsLawfulCmp d) :
    IsLawfulCmp (fun a b => (c a b).then (d a b)) := by
  have split_eq : ∀ a b, (c a b).then (d a b) = .eq → c a b = .eq ∧ d a b = .eq := by
    intro a b h
    rcases hcab : c a b with _ | _ | _ <;> rw [hcab] at h <;>
      simp [Ordering.then] at h ⊢
    exact h
  constructor
  · intro a b
    rcases h : c a b with _ | _ | _
    · rw [hc.gtOfLt h]
      rfl
    · rw [hc.eqSymm h]
      simp only [Ordering.then]
      exact hd.swapEq a b
    · rw [hc.ltOfGt h]
      rfl
  · intro a b x hab hbx
    have hsplit : ∀ u v, (c u v).then (d u v) = .lt →
        c u v = .lt ∨ (c u v = .eq ∧ d u v = .lt) := by
      intro u v h
      rcases hcuv : c u v with _ | _ | _ <;> rw [hcuv] at h <;> simp only [Ordering.then] at h
      · exact Or.inl rfl
      · exact Or.inr ⟨rfl, h⟩
      · exact absurd h (by decide)
    show (c a x).then (d a x) = .lt
    rcases hsplit a b hab with h1 | ⟨h1, hd1⟩ <;> rcases hsplit b x hbx with h2 | ⟨h2, hd2⟩
    · rw [hc.ltTrans a b x h1 h2]
      rfl
    · have hax : c a x = .lt := by rw [← hc.eqSubstR h2 a]; exact h1
      rw [hax]
      rfl
    · have hax : c a x = .lt := by rw [hc.eqSubst a b x h1]; exact h2
      rw [hax]
      rfl
    · have hax : c a x = .eq := by rw [hc.eqSubst a b x h1]; exact h2
      rw [hax]
      simp only [Ordering.then]
      exact hd.ltTrans a b x hd1 hd2
  · intro a b x hab
    obtain ⟨h1, h2⟩ := split_eq a b hab
    show (c a x).then (d a x) = (c b x).then (d b x)
    rw [hc.eqSubst a b x h1, hd.eqSubst a b x h2]

/-! ### Stable insertion sort (model of `Array.prototype.sort` / `_.sortBy`) -/

/-- Insert `x` before the first element it is `le`-below-or-tied-with
was *not* yet inserted after... precisely: `x` is placed before the first
`y` with `le x y`; on ties the earlier (already `x`, the new element is
the earlier input element because `sortByLe` recurses tail-first) element
stays first, giving stability. -/
def insertSorted {α : Type} (le : α → α → Bool) (x : α) : List α → List α
  | [] => [x]
  | y :: ys => if le x y then x :: y :: ys else y :: insertSorted le x ys

/-- Stable sort by a boolean `le`. -/
def sortByLe {α : Type} (le : α → α → Bool) : List α → List α
  | [] => []
  | x :: xs => insertSorted le x (sortByLe le xs)

theorem perm_insertSorted {α : Type} (le : α → α → Bool) (x : α) :
    ∀ l : List α, List.Perm (insertSorted le x l) (x :: l) := by
  intro l
  induction l with
  | nil => exact List.Perm.refl _
  | cons y ys ih =>
    unfold insertSorted
    split_ifs
    · exact List.Perm.refl _
    · exact List.Perm.trans (List.Perm.cons y ih) (List.Perm.swap x y ys)

theorem perm_sortByLe {α : Type} (le : α → α → Bool) :
    ∀ l : List α, List.Perm (sortByLe le l) l := by
  intro l
  induction l with
  | nil => exact List.Perm.refl _
  | cons x xs ih =>
    exact List.Perm.trans (perm_insertSorted le x (sortByLe le xs)) (List.Perm.cons x ih)

theorem mem_sortByLe {α : Type} {le : α → α → Bool} {a : α} {l : List α} :
    a ∈ sortByLe le l ↔ a ∈ l :=
  (perm_sortByLe le l).mem_iff

theorem pairwise_insertSorted {α : Type} {le : α → α → Bool}
    (htrans : ∀ a b x, le a b = true → le b x = true → le a x = true)
    (htotal : ∀ a b, le a b = true ∨ le b a = true)
    (x : α) {l : List α} (hl : l.Pairwise (fun a b => le a b = true)) :
    (insertSorted le x l).Pairwise (fun a b => le a b = true) := by
  induction l with
  | nil => simp [insertSorted]
  | cons y ys ih =>
    rcases List.pairwise_cons.mp hl with ⟨hy, hys⟩
    unfold insertSorted
    split_ifs with hle
    · refine List.pairwise_cons.mpr ⟨?_, hl⟩
      intro z hz
      rcases List.mem_cons.mp hz with h | h
      · subst h
        exact hle
      · exact htrans x y z hle (hy z h)
    · have hyx : le y x = true := by
        rcases htotal x y with h | h
        · exact absurd h hle
        · exact h
      refine List.pairwise_cons.mpr ⟨?_, ih hys⟩
      intro z hz
      rcases List.mem_cons.mp ((perm_insertSorted le x ys).mem_iff.mp hz) with h | h
      · subst h
        exact hyx
      · exact hy z h

theorem pairwise_sortByLe {α : Type} {le : α → α → Bool}
    (htrans : ∀ a b x, le a b = true → le b x = true → le a x = true)
    (htotal : ∀ a b, le a b = true ∨ le b a = true)
    (l : List α) : (sortByLe le l).Pairwise (fun a b => le a b = true) := by
  induction l with
  | nil => simp [sortByLe]
  | cons x xs ih => exact pairwise_insertSorted htrans htotal x ih

/-! ### Sort Compiler (modelled from the spec) -/

/-- Type rank for sorting: undefined/null lowest, then numbers, then
strings, then composite values. -/
def valRank : Option Val → ℕ
  | none => 0
  | some .null => 0
  | some (.num _) => 1
  | some (.str _) => 2
  | some _ => 3

def numKey : Option Val → ℚ
  | some (.num q) => q
  | _ => 0

def strKey : Option Val → String
  | some (.str s) => s
  | _ => ""

theorem then_eq_lt {o1 o2 : Ordering} :
    o1.then o2 = .lt ↔ o1 = .lt ∨ (o1 = .eq ∧ o2 = .lt) := by
  cases o1 <;> simp [Ordering.then]

theorem then_eq_eq {o1 o2 : Ordering} : o1.then o2 = .eq ↔ o1 = .eq ∧ o2 = .eq := by
  cases o1 <;> simp [Ordering.then]

theorem then_swap (o1 o2 : Ordering) : (o1.then o2).swap = o1.swap.then o2.swap := by
  cases o1 <;> cases o2 <;> rfl

/-- Character-level lexicographic string comparison (Mathlib's `String`
order is not kernel-reducible; this one is, and is what the modelled
sort compiler uses for the "lexical" tier). -/
def cmpChars : List Char → List Char → Ordering
  | [], [] => .eq
  | [], _ :: _ => .lt
  | _ :: _, [] => .gt
  | a :: as, b :: bs => (cmpOfLt a.toNat b.toNat).then (cmpChars as bs)

theorem cmpChars_swapEq : ∀ a b, cmpChars a b = (cmpChars b a).swap
  | [], [] => rfl
  | [], _ :: _ => rfl
  | _ :: _, [] => rfl
  | a :: as, b :: bs => by
    show (cmpOfLt a.toNat b.toNat).then (cmpChars as bs) =
      ((cmpOfLt b.toNat a.toNat).then (cmpChars bs as)).swap
    rw [then_swap, ← lawful_cmpOfLt.swapEq, ← cmpChars_swapEq as bs]

theorem cmpChars_ltTrans : ∀ a b x, cmpChars a b = .lt → cmpChars b x = .lt →
    cmpChars a x = .lt
  | [], [], _, hab, _ => absurd hab (by simp [cmpChars])
  | [], _ :: _, [], _, hbx => absurd hbx (by simp [cmpChars])
  | [], _ :: _, _ :: _, _, _ => rfl
  | _ :: _, [], _, hab, _ => absurd hab (by simp [cmpChars])
  | _ :: _, _ :: _, [], _, hbx => absurd hbx (by simp [cmpChars])
  | a :: as, b :: bs, x :: xs, hab, hbx => by
    show (cmpOfLt a.toNat x.toNat).then (cmpChars as xs) = .lt
    rw [cmpChars] at hab hbx
    rcases then_eq_lt.mp hab with h1 | ⟨h1, h1'⟩ <;> rcases then_eq_lt.mp hbx with h2 | ⟨h2, h2'⟩
    · exact then_eq_lt.mpr (Or.inl (lawful_cmpOfLt.ltTrans _ _ _ h1 h2))
    · have hbn : b.toNat = x.toNat := cmpOfLt_eq_eq.mp h2
      exact then_eq_lt.mpr (Or.inl (hbn ▸ h1))
    · have han : a.toNat = b.toNat := cmpOfLt_eq_eq.mp h1
      exact then_eq_lt.mpr (Or.inl (han ▸ h2))
    · have han : a.toNat = b.toNat := cmpOfLt_eq_eq.mp h1
      have hbn : b.toNat = x.toNat := cmpOfLt_eq_eq.mp h2
      refine then_eq_lt.mpr (Or.inr ⟨?_, cmpChars_ltTrans as bs xs h1' h2'⟩)
      rw [han, hbn]
      exact cmpOfLt_eq_eq.mpr rfl

theorem cmpChars_eqSubst : ∀ a b x, cmpChars a b = .eq → cmpChars a x = cmpChars b x
  | [], [], _, _ => rfl
  | [], _ :: _, _, hab => absurd hab (by simp [cmpChars])
  | _ :: _, [], _, hab => absurd hab (by simp [cmpChars])
  | a :: as, b :: bs, [], _ => rfl
  | a :: as, b :: bs, x :: xs, hab => by
    rw [cmpChars] at hab
    obtain ⟨h1, h2⟩ := then_eq_eq.mp hab
    have han : a.toNat = b.toNat := cmpOfLt_eq_eq.mp h1
    show (cmpOfLt a.toNat x.toNat).then (cmpChars as xs) =
      (cmpOfLt b.toNat x.toNat).then (cmpChars bs xs)
    rw [han, cmpChars_eqSubst as bs xs h2]

theorem lawful_cmpChars : IsLawfulCmp cmpChars :=
  ⟨cmpChars_swapEq, cmpChars_ltTrans, cmpChars_eqSubst⟩

/-- Modelled from the spec (§4.2 Sort Compiler): value comparison used by
`compileSort` from `src/selector.ts`, which is not among the sources.
"undefined/null sorts lowest, then numeric, then lexical, then
structural for composite values"; composite values of equal rank tie
(the stable sort keeps their input order). -/
def cmpVal (a b : Option Val) : Ordering :=
  (cmpOfLt (valRank a) (valRank b)).then
    ((cmpOfLt (numKey a) (numKey b)).then (cmpChars (strKey a).data (strKey b).data))

theorem lawful_cmpVal : IsLawfulCmp cmpVal :=
  lawful_then (lawful_comap valRank lawful_cmpOfLt)
    (lawful_then (lawful_comap numKey lawful_cmpOfLt)
      (lawful_comap (fun o => (strKey o).data) lawful_cmpChars))

/-- Modelled from the spec (§4.2 Sort Compiler): `compileSort` from
`src/selector.ts` is not among the sources.  A sort spec is an ordered
sequence of `(field, ascending)` pairs; multiple keys compare
lexicographically by key order. -/
def compileSort : List (String × Bool) → Val → Val → Ordering
  | [], _, _ => .eq
  | (f, asc) :: rest, a, b =>
    (if asc then cmpVal (getField? a f) (getField? b f)
     else (cmpVal (getField? a f) (getField? b f)).swap).then
      (compileSort rest a b)

theorem lawful_const_eq {α : Type} : IsLawfulCmp (fun (_ _ : α) => Ordering.eq) :=
  ⟨fun _ _ => rfl, fun _ _ _ h => Ordering.noConfusion h, fun _ _ _ _ => rfl⟩

theorem lawful_compileSort (s : List (String × Bool)) : IsLawfulCmp (compileSort s) := by
  induction s with
  | nil => exact lawful_const_eq
  | cons fa rest ih =>
    obtain ⟨f, asc⟩ := fa
    have hcomap : IsLawfulCmp (fun a b : Val => cmpVal (getField? a f) (getField? b f)) :=
      lawful_comap (fun v => getField? v f) lawful_cmpVal
    cases asc
    · exact lawful_then (lawful_swap hcomap) ih
    · exact lawful_then hcomap ih

/-- The boolean "should `a` come no later than `b`" derived from the
compiled comparator; this is what the stable sort consumes. -/
def sortLe (s : List (String × Bool)) (a b : Val) : Bool :=
  decide (compileSort s a b ≠ Ordering.gt)

theorem cmp_ne_gt_trans {α : Type} {c : α → α → Ordering} (hc : IsLawfulCmp c) {a b x : α}
    (hab : c a b ≠ .gt) (hbx : c b x ≠ .gt) : c a x ≠ .gt := by
  rcases h1 : c a b with _ | _ | _
  · rcases h2 : c b x with _ | _ | _
    · rw [hc.ltTrans a b x h1 h2]
      simp
    · rw [← hc.eqSubstR h2 a, h1]
      simp
    · exact absurd h2 hbx
  · rw [hc.eqSubst a b x h1]
    exact hbx
  · exact absurd h1 hab

theorem cmp_ne_gt_total {α : Type} {c : α → α → Ordering} (hc : IsLawfulCmp c) (a b : α) :
    c a b ≠ .gt ∨ c b a ≠ .gt := by
  rcases h : c a b with _ | _ | _
  · left
    simp [h]
  · left
    simp [h]
  · right
    rw [hc.ltOfGt h]
    simp

theorem sortLe_trans (s : List (String × Bool)) :
    ∀ a b x, sortLe s a b = true → sortLe s b x = true → sortLe s a x = true := by
  intro a b x hab hbx
  exact decide_eq_true (cmp_ne_gt_trans (lawful_compileSort s)
    (of_decide_eq_true hab) (of_decide_eq_true hbx))

theorem sortLe_total (s : List (String × Bool)) :
    ∀ a b, sortLe s a b = true ∨ sortLe s b a = true := by
  intro a b
  rcases cmp_ne_gt_total (lawful_compileSort s) a b with h | h
  · exact Or.inl (decide_eq_true h)
  · exact Or.inr (decide_eq_true h)

/-! ### Selector Compiler (modelled from the spec) -/

def startsDollar (s : String) : Bool :=
  match s.data with
  | c :: _ => decide (c = '$')
  | [] => false

def isOpObject (v : Val) : Bool :=
  match v with
  | .obj fs => !fs.isEmpty && fs.all (fun kv => startsDollar kv.1)
  | _ => false

/-- Modelled from the spec (§4.1 Selector Compiler): one operator
application inside a condition object.  The geospatial operators `$near`
and `$geoIntersects` are recognized and always pass here — per the spec
they "are NOT embedded in the boolean predicate directly"; the Query
Processor applies them as a separate stage.  Unknown operators fail
closed. -/
def applyOp (docVal : Option Val) (op : String) (operand : Val) : Bool :=
  if op = "$near" then true
  else if op = "$geoIntersects" then true
  else if op = "$eq" then decide (docVal = some operand)
  else false

/-- Modelled from the spec (§4.1): a condition is either an operator
object (all keys are `$`-operators) or an implicit structural equality. -/
def matchCond (docVal : Option Val) (cond : Val) : Bool :=
  if isOpObject cond then
    match cond with
    | .obj fs => fs.all (fun kv => applyOp docVal kv.1 kv.2)
    | _ => false
  else decide (docVal = some cond)

/-- Modelled from the spec (§4.1 Selector Compiler): the compiled
predicate of `compileDocumentSelector` from `src/selector.ts`, which is
not among the sources.  Only the features the claims exercise are
modelled; every claim that quantifies over selectors treats this
predicate as an opaque filter. -/
def compileDocumentSelector (selector : List (String × Val)) (doc : Val) : Bool :=
  selector.all (fun kv => matchCond (getField? doc kv.1) kv.2)

/-! ### Geo Predicate Adapter boundary -/

/-- The external turf.js primitives, as an abstract bundle of pure
functions (the spec treats geometry primitives as an external pure
function contract).  `nearestDist` is
`nearestPointOnLine(line, point).properties.dist`. -/
structure GeoExt where
  turfDistance : Val → Val → ℚ
  nearestDist : Val → Val → ℚ
  booleanPointInPolygon : Val → Val → Bool
  intersect : Val → Val → Option Val
  booleanCrosses : Val → Val → Bool
  booleanWithin : Val → Val → Bool

/-- Errors the embedded code can raise: the `throw new Error("Unsupported
type")` of `getDistance`, and the JavaScript `TypeError` of dereferencing
a missing/ null value (`geo.type` with `$geometry` absent). -/
inductive GeoErr where
  | unsupportedGeometry
  | typeError
deriving DecidableEq

/-- Embeds `getDistance` (src/utils.ts:332-341).  A `null` target throws
a `TypeError` in JavaScript before any type test. -/
def getDistance (ext : GeoExt) (gfrom gto : Val) : Except GeoErr ℚ :=
  match gto with
  | .null => .error .typeError
  | _ =>
    if getField? gto "type" = some (.str "Point") then .ok (ext.turfDistance gfrom gto)
    else if getField? gto "type" = some (.str "LineString") then .ok (ext.nearestDist gto gfrom)
    else .error .unsupportedGeometry

/-- Error-propagating map (the JavaScript exceptions propagate out of
`_.map`). -/
def mapExcept {ε α β : Type} (f : α → Except ε β) : List α → Except ε (List β)
  | [] => .ok []
  | x :: xs =>
    match f x with
    | .error e => .error e
    | .ok y =>
      match mapExcept f xs with
      | .error e => .error e
      | .ok ys => .ok (y :: ys)

/-- The type filter of the `$near` stage:
`doc[key] && (doc[key].type === "Point" || doc[key].type === "LineString")`. -/
def nearTypeOk (doc : Val) (key : String) : Bool :=
  match getField? doc key with
  | some f =>
    truthy f &&
      (decide (getField? f "type" = some (.str "Point")) ||
       decide (getField? f "type" = some (.str "LineString")))
  | none => false

/-- One document's `{doc, distance}` record of the `$near` stage.  A
document without the key would make `getDistance` dereference
`undefined` (a `TypeError`); the stage's type filter makes that branch
unreachable. -/
def distOfDoc (ext : GeoExt) (geo : Val) (key : String) (doc : Val) : Except GeoErr (Val × ℚ) :=
  match getField? doc key with
  | some f =>
    match getDistance ext geo f with
    | .ok d => .ok (doc, d)
    | .error e => .error e
  | none => .error .typeError

/-- The `item.distance <= maxDistance` test (only reached when
`$maxDistance` is truthy; a non-numeric bound compares false — JavaScript
would coerce numeric strings, which no claim exercises). -/
def leMaxD (d : ℚ) (m : Option Val) : Bool :=
  match m with
  | some (.num q) => decide (d ≤ q)
  | _ => false

/-- Embeds `processNearOperator` (src/utils.ts:296-330).  The `for key in
selector` loop is recursion over the selector's own enumerable entries;
`break` on a non-Point `$near` geometry returns the list processed so
far.  A missing or `null` `$geometry` makes `geo.type` throw
(`TypeError`). -/
def processNearOperator (ext : GeoExt) : List (String × Val) → List Val → Except GeoErr (List Val)
  | [], list => .ok list
  | (key, value) :: rest, list =>
    match getField? value "$near" with
    | some nv =>
      if truthy nv then
        match getField? nv "$geometry" with
        | none => .error .typeError
        | some .null => .error .typeError
        | some geo =>
          if getField? geo "type" = some (.str "Point") then
            match mapExcept (distOfDoc ext geo key) (list.filter (fun doc => nearTypeOk doc key)) with
            | .error e => .error e
            | .ok distances =>
              let distances := distances.filter (fun p => decide (0 ≤ p.2))
              let distances := sortByLe (fun p q => decide (p.2 ≤ q.2)) distances
              let distances :=
                if truthyO (getField? nv "$maxDistance") then
                  distances.filter (fun p => leMaxD p.2 (getField? nv "$maxDistance"))
                else distances
              processNearOperator ext rest (distances.map Prod.fst)
          else .ok list
      else processNearOperator ext rest list
    | none => processNearOperator ext rest list

/-- Embeds `pointInPolygon` (src/utils.ts:343-345). -/
def pointInPolygon (ext : GeoExt) (point polygon : Val) : Bool :=
  ext.booleanPointInPolygon point polygon

/-- Embeds `polygonIntersection` (src/utils.ts:347-349). -/
def polygonIntersection (ext : GeoExt) (polygon1 polygon2 : Val) : Bool :=
  (ext.intersect polygon1 polygon2).isSome

/-- `v.coordinates` as an array; JavaScript would throw on a missing
`coordinates` (never exercised by the claims, which supply arrays). -/
def coordsOf (v : Val) : List Val :=
  match getField? v "coordinates" with
  | some (.arr xs) => xs
  | _ => []

/-- The per-part line object built by the MultiLineString branch. -/
def lineStringOf (line : Val) : Val :=
  .obj [("type", .str "LineString"), ("coordinates", line)]

/-- The filter callback of the `$geoIntersects` stage
(src/utils.ts:379-410); an unknown geometry type falls through every
branch and returns `undefined`, i.e. the document is excluded. -/
def geoIntersectsMatch (ext : GeoExt) (key : String) (geo : Val) (doc : Val) : Bool :=
  match getField? doc key with
  | none => false
  | some f =>
    if truthy f = false then false
    else
      let t := getField? f "type"
      if t = some (.str "Point") then pointInPolygon ext f geo
      else if t = some (.str "Polygon") ∨ t = some (.str "MultiPolygon") then
        polygonIntersection ext f geo
      else if t = some (.str "LineString") then
        if coordsOf f = [] then false
        else ext.booleanCrosses f geo || ext.booleanWithin f geo
      else if t = some (.str "MultiLineString") then
        (coordsOf f).any (fun line =>
          if line = Val.arr [] then false
          else
            ext.booleanCrosses (lineStringOf line) geo ||
              ext.booleanWithin (lineStringOf line) geo)
      else false

/-- Embeds `processGeoIntersectsOperator` (src/utils.ts:368-415); the
same loop/`break` shape as the `$near` stage, with the polygon-only
geometry guard. -/
def processGeoIntersectsOperator (ext : GeoExt) :
    List (String × Val) → List Val → Except GeoErr (List Val)
  | [], list => .ok list
  | (key, value) :: rest, list =>
    match getField? value "$geoIntersects" with
    | some gv =>
      if truthy gv then
        match getField? gv "$geometry" with
        | none => .error .typeError
        | some .null => .error .typeError
        | some geo =>
          if getField? geo "type" = some (.str "Polygon") then
            processGeoIntersectsOperator ext rest (list.filter (geoIntersectsMatch ext key geo))
          else .ok list
      else processGeoIntersectsOperator ext rest list
    | none => processGeoIntersectsOperator ext rest list

/-! ### Field projection (`filterFields`) -/

/-- The `obj == null` loose-equality test (true for `null` and
`undefined`). -/
def looseNull (o : Option Val) : Bool :=
  match o with
  | none => true
  | some .null => true
  | some _ => false

/-- The existence walk of inclusion mode (src/utils.ts:230-236):
`obj = item; for (pathElem of path) if (obj) obj = obj[pathElem]`.
A falsy intermediate stops the dereferencing but the loop keeps the
value. -/
def existWalk : Option Val → List String → Option Val
  | o, [] => o
  | some v, p :: rest =>
    if truthy v then existWalk (getField? v p) rest else existWalk (some v) rest
  | none, _ :: rest => existWalk none rest

/-- The copy walk of inclusion mode (src/utils.ts:242-254):
`to[pathElem] = to[pathElem] || {}`, descend, finally
`to[last] = from[last]`.  Copying an absent final value is modelled as a
no-op (JavaScript would store `undefined`, indistinguishable from an
absent key for every operation in this file). -/
def copyPath (src dst : Val) : List String → Val
  | [] => dst
  | [last] =>
    match getField? src last with
    | some w => setField dst last w
    | none => dst
  | p :: rest =>
    let sub :=
      match getField? dst p with
      | some w => if truthy w then w else Val.obj []
      | none => Val.obj []
    setField dst p (copyPath ((getField? src p).getD Val.null) sub rest)

/-- The exclusion-mode walk (src/utils.ts:263-280): descend the guarded
path and `delete` the last segment; any missing/non-object intermediate
makes the whole walk a no-op. -/
def deletePath (v : Val) : List String → Val
  | [] => v
  | [last] => delField v last
  | p :: rest =>
    match v with
    | .obj fs => .obj (fs.map (fun kv => if kv.1 = p then (kv.1, deletePath kv.2 rest) else kv))
    | _ => v

/-- One document of inclusion mode: fold the listed paths (keys plus
`"_id"`) over an initially empty object. -/
def includeItem (fields : List String) (item : Val) : Val :=
  fields.foldl
    (fun newItem field =>
      let path := splitPath field
      if looseNull (existWalk (some item) path) then newItem
      else copyPath item newItem path)
    (Val.obj [])

/-- One document of exclusion mode: the `JSON.parse(JSON.stringify(item))`
deep clone is the identity on these (pure JSON) values, then the listed
paths are deleted. -/
def excludeItem (fields : List String) (item : Val) : Val :=
  fields.foldl (fun it field => deletePath it (splitPath field)) item

/-- Embeds `filterFields` (src/utils.ts:214-285).  Inclusion mode is
chosen by `_.first(_.values(fields)) === 1` — strict equality with the
number 1. -/
def filterFields (items : List Val) (fields : List (String × Val)) : List Val :=
  if fields.length = 0 then items
  else
    items.map (fun item =>
      if (fields.map Prod.snd).head? = some (Val.num 1) then
        includeItem (fields.map Prod.fst ++ ["_id"]) item
      else excludeItem (fields.map Prod.fst) item)

/-! ### `processFind` -/

/-- `options` as consumed by `processFind`; `none` models an absent
property (and an absent `options` object is all-`none`). -/
structure FindOptions where
  sort : Option (List (String × Bool)) := none
  skip : Option ℕ := none
  limit : Option ℕ := none
  fields : Option (List (String × Val)) := none

/-- Stage (4): `if (options && options.sort) filtered.sort(compileSort
(options.sort))`. -/
def sortStage (options : FindOptions) (l : List Val) : List Val :=
  match options.sort with
  | some s => sortByLe (sortLe s) l
  | none => l

/-- Stage (5): `if (options && options.skip) _.slice(filtered,
options.skip)`; `0` is falsy. -/
def skipStage (options : FindOptions) (l : List Val) : List Val :=
  match options.skip with
  | some k => if k = 0 then l else l.drop k
  | none => l

/-- Stage (6): `if (options && options.limit) _.take(filtered,
options.limit)`; `0` is falsy, so `limit: 0` means no limit. -/
def limitStage (options : FindOptions) (l : List Val) : List Val :=
  match options.limit with
  | some k => if k = 0 then l else l.take k
  | none => l

/-- Stage (7): `if (options && options.fields) filterFields(filtered,
options.fields)`; an empty `fields` object is truthy and hits
`filterFields`' trivial case. -/
def fieldsStage (options : FindOptions) (l : List Val) : List Val :=
  match options.fields with
  | some fs => filterFields l fs
  | none => l

/-- Embeds `processFind` (src/utils.ts:186-211): predicate filter, then
the `$near` stage, then the `$geoIntersects` stage, then sort, skip,
limit and field projection. -/
def processFind (ext : GeoExt) (items : List Val) (selector : List (String × Val))
    (options : FindOptions) : Except GeoErr (List Val) :=
  match processNearOperator ext selector (items.filter (compileDocumentSelector selector)) with
  | .error e => .error e
  | .ok l2 =>
    match processGeoIntersectsOperator ext selector l2 with
    | .error e => .error e
    | .ok l3 =>
      .ok (fieldsStage options (limitStage options (skipStage options (sortStage options l3))))

/-! ### `createUid` and `regularizeUpsert` -/

/-- The `replace(/[xy]/g, ...)` walk of `createUid`: the `k`-th replaced
character consumes the `k`-th random draw. -/
def uidGo (r : ℕ → Fin 16) : List Char → ℕ → List Char
  | [], _ => []
  | c :: cs, k =>
    if c = 'x' then Nat.digitChar (r k).val :: uidGo r cs (k + 1)
    else if c = 'y' then Nat.digitChar ((r k).val % 4 + 8) :: uidGo r cs (k + 1)
    else c :: uidGo r cs k

/-- Embeds `createUid` (src/utils.ts:288-294).  `(Math.random() * 16) | 0`
is a stream of draws `r : ℕ → Fin 16`; an `x` becomes the draw as a hex
digit, a `y` becomes `(draw & 0x3) | 0x8 = draw % 4 + 8`. -/
def createUid (r : ℕ → Fin 16) : String :=
  String.mk (uidGo r "xxxxxxxxxxxx4xxxyxxxxxxxxxxxxxxx".data 0)

/-- A `docs` (or `bases`) argument of `upsert`: either one document or an
array. -/
inductive UpsertInput where
  | single (d : Val)
  | many (ds : List Val)

/-- The two `throw new Error(...)` conditions of `regularizeUpsert`
("Base needs _id" / "Base needs same _id") — the spec's `BaseIdMismatch`
class. -/
inductive UpsertErr where
  | baseNeedsId
  | baseNeedsSameId
deriving DecidableEq

/-- The doc list after the single/array normalization
(`if (!_.isArray(docs)) docs = [docs]`). -/
def normDocs : UpsertInput → List Val
  | .single d => [d]
  | .many ds => ds

/-- The base list after normalization.  A single doc wraps whatever was
passed as its base (`bases = [bases]`): an absent base stays absent, an
array passed as the base of a single doc becomes that one (array) base.
With an array of docs, a non-array `bases` has no `length` property, so
`i < bases.length` is false for every `i` and no base is read. -/
def normBases : UpsertInput → Option UpsertInput → List (Option Val)
  | .single _, none => [none]
  | .single _, some (.single b) => [some b]
  | .single _, some (.many bs) => [some (Val.arr bs)]
  | .many _, none => []
  | .many _, some (.single _) => []
  | .many _, some (.many bs) => bs.map some

/-- `_.map(docs, (doc, i) => ({doc, base: i < bases.length ? bases[i] :
undefined}))`. -/
def pairItems : List Val → List (Option Val) → List (Val × Option Val)
  | [], _ => []
  | d :: ds, [] => (d, none) :: pairItems ds []
  | d :: ds, b :: bs => (d, b) :: pairItems ds bs

/-- JavaScript strict inequality `!==` between the two `_id` values.
Primitives compare by value; two object values compare by reference and
are modelled as always distinct (the code never passes the same
reference as both ids). -/
def jsStrictNe (a b : Option Val) : Bool :=
  match a, b with
  | none, none => false
  | some .null, some .null => false
  | some (.bool x), some (.bool y) => decide (x ≠ y)
  | some (.num x), some (.num y) => decide (x ≠ y)
  | some (.str x), some (.str y) => decide (x ≠ y)
  | _, _ => true

/-- `if (!item.doc._id) item.doc._id = createUid()` for one item:
assign the `k`-th fresh id when the doc's `_id` is falsy. -/
def assignDoc (fresh : ℕ → String) (k : ℕ) (d : Val) : Val :=
  if truthyO (getField? d "_id") then d else setField d "_id" (.str (fresh k))

/-- The two base checks of the loop body: `if (item.base &&
!item.base._id) throw "Base needs _id"; if (item.base && item.base._id
!== item.doc._id) throw "Base needs same _id"`. -/
def checkBase (dId : Option Val) (b : Option Val) : Option UpsertErr :=
  match b with
  | some bv =>
    if truthy bv then
      if truthyO (getField? bv "_id") = false then some .baseNeedsId
      else if jsStrictNe (getField? bv "_id") dId then some .baseNeedsSameId
      else none
    else none
  | none => none

/-- The `for (let item of items)` loop of `regularizeUpsert`
(src/utils.ts:447-457): assign a fresh `_id` where the doc's is falsy
(`fresh k` is the `k`-th generated id), then check the base; the first
failing check throws. -/
def checkItems (fresh : ℕ → String) : List (Val × Option Val) → ℕ →
    Except UpsertErr (List (Val × Option Val))
  | [], _ => .ok []
  | (d, b) :: rest, k =>
    let d' := assignDoc fresh k d
    let k' := if truthyO (getField? d "_id") then k else k + 1
    match checkBase (getField? d' "_id") b with
    | some e => .error e
    | none =>
      match checkItems fresh rest k' with
      | .error e => .error e
      | .ok out => .ok ((d', b) :: out)

/-- Embeds `regularizeUpsert` (src/utils.ts:421-460), minus the
callback plumbing (`_.isFunction(bases)` only shifts the `success`/
`error` arguments; the returned `[items, success, error]` triple is
modelled by its `items` component).  The `k`-th generated id uses the
`k`-th random stream. -/
def regularizeUpsert (streams : ℕ → ℕ → Fin 16) (docs : UpsertInput)
    (bases : Option UpsertInput) : Except UpsertErr (List (Val × Option Val)) :=
  checkItems (fun k => createUid (streams k)) (pairItems (normDocs docs) (normBases docs bases)) 0

/-! ### Spec-side definitions

These definitions follow the specification's wording; the claim theorems
relate them to the embedded source functions. -/

/-- Dotted-path lookup through nested objects ("that exist in the source
document"): present iff every step dereferences an existing key. -/
def getPath? : Val → List String → Option Val
  | v, [] => some v
  | v, p :: rest =>
    match getField? v p with
    | some w => getPath? w rest
    | none => none

/-- Dotted-path write, creating (or reusing truthy) intermediate
objects — the spec's "preserving intermediate structure". -/
def setPath (acc : Val) : List String → Val → Val
  | [], _ => acc
  | [last], w => setField acc last w
  | p :: rest, w =>
    let sub :=
      match getField? acc p with
      | some s => if truthy s then s else Val.obj []
      | none => Val.obj []
    setField acc p (setPath sub rest w)

/-- Spec-side inclusion projection: "copies only listed dotted paths plus
the id field, preserving intermediate structure and skipping missing
paths" (a `null` value counts as missing, exactly as the code's
`obj == null` test). -/
def specProject (item : Val) (paths : List (List String)) : Val :=
  paths.foldl
    (fun acc p =>
      match getPath? item p with
      | some w => if w = Val.null then acc else setPath acc p w
      | none => acc)
    (Val.obj [])

/-- Spec-side exclusion projection: "deep-copies each document then
deletes listed dotted paths" (deep copy is the identity on values). -/
def specExclude (item : Val) (paths : List (List String)) : Val :=
  paths.foldl (fun acc p => deletePath acc p) item

/-- Documents whose values along a listed path are objects where the
path continues: on such documents the code's guarded existence walk and
plain dotted-path lookup agree.  (JavaScript documents with, say, a
number in the middle of a projected path hit undefined-dereference
edge cases that the spec does not describe.) -/
def cleanPath (item : Val) : List String → Bool
  | [] => true
  | p :: rest =>
    match getField? item p with
    | some w =>
      match rest with
      | [] => true
      | _ :: _ =>
        match w with
        | .obj _ => cleanPath w rest
        | _ => false
    | none => true

/-- The distance the `$near` stage associates with a document (0 for
documents its type filter removes; never consulted for those). -/
def distDoc (ext : GeoExt) (geo : Val) (key : String) (d : Val) : ℚ :=
  match getField? d key with
  | some f =>
    match getDistance ext geo f with
    | .ok q => q
    | .error _ => 0
  | none => 0

/-- The lowercase-hex check of the uid alphabet. -/
def isHexChar (c : Char) : Bool :=
  decide (c ∈ "0123456789abcdef".data)

/-- The shape claim C10 makes of generated ids. -/
def uidShape (s : String) : Prop :=
  s.length = 32 ∧ (∀ c ∈ s.data, isHexChar c = true) ∧
    s.data.get? 12 = some '4' ∧
    (∃ c, s.data.get? 16 = some c ∧ (c = '8' ∨ c = '9' ∨ c = 'a' ∨ c = 'b'))

/-- How many docs among the first `i` pairs lack a truthy `_id` (each
consumes one generated id). -/
def missBefore (pairs : List (Val × Option Val)) (i : ℕ) : ℕ :=
  ((pairs.take i).filter (fun p => !truthyO (getField? p.1 "_id"))).length

/-! ### Helper lemmas -/

theorem getField?_some_obj {v : Val} {k : String} {w : Val} (h : getField? v k = some w) :
    ∃ fs, v = Val.obj fs := by
  cases v <;> simp [getField?] at h <;> exact ⟨_, rfl⟩

theorem truthy_of_getField {v : Val} {k : String} {w : Val} (h : getField? v k = some w) :
    truthy v = true := by
  obtain ⟨fs, rfl⟩ := getField?_some_obj h
  rfl

theorem mapExcept_ok_of_forall {ε α β : Type} {f : α → Except ε β} {g : α → β} :
    ∀ {l : List α}, (∀ x ∈ l, f x = .ok (g x)) → mapExcept f l = .ok (l.map g)
  | [], _ => rfl
  | x :: xs, h => by
    rw [mapExcept, h x (List.mem_cons_self x xs),
      mapExcept_ok_of_forall (fun y hy => h y (List.mem_cons_of_mem x hy))]
    rfl

theorem distOfDoc_eq {d : Val} {key : String} (ext : GeoExt) (geo : Val)
    (h : nearTypeOk d key = true) :
    distOfDoc ext geo key d = .ok (d, distDoc ext geo key d) := by
  unfold nearTypeOk at h
  rcases hf : getField? d key with _ | f
  · rw [hf] at h
    exact absurd h (by simp)
  · rw [hf] at h
    simp only [Bool.and_eq_true, Bool.or_eq_true, decide_eq_true_eq] at h
    have hobj : ∃ gfs, f = Val.obj gfs := by
      rcases h.2 with h2 | h2 <;> exact getField?_some_obj h2
    obtain ⟨gfs, rfl⟩ := hobj
    rcases h.2 with h2 | h2 <;> simp [distOfDoc, distDoc, getDistance, hf, h2]

/-- The list the `$near` stage leaves for one selector key with a valid
Point geometry (helper for the claim theorems). -/
def nearKeyResult (ext : GeoExt) (nv geo : Val) (key : String) (list : List Val) : List Val :=
  let pairs := (list.filter (fun d => nearTypeOk d key)).map
    (fun d => (d, distDoc ext geo key d))
  let pairs := pairs.filter (fun p => decide (0 ≤ p.2))
  let pairs := sortByLe (fun p q => decide (p.2 ≤ q.2)) pairs
  let pairs :=
    if truthyO (getField? nv "$maxDistance") then
      pairs.filter (fun p => leMaxD p.2 (getField? nv "$maxDistance"))
    else pairs
  pairs.map Prod.fst

theorem nearStep_eq (ext : GeoExt) {key : String} {v nv geo : Val} (rest : List (String × Val))
    (list : List Val) (hnv : getField? v "$near" = some nv)
    (hgeo : getField? nv "$geometry" = some geo)
    (hty : getField? geo "type" = some (.str "Point")) :
    processNearOperator ext ((key, v) :: rest) list =
      processNearOperator ext rest (nearKeyResult ext nv geo key list) := by
  obtain ⟨gfs, rfl⟩ := getField?_some_obj hty
  have htr : truthy nv = true := truthy_of_getField hgeo
  simp only [processNearOperator, hnv, htr, hgeo, hty, if_true]
  rw [mapExcept_ok_of_forall (g := fun d => (d, distDoc ext (Val.obj gfs) key d))
    (fun x hx => @distOfDoc_eq x key ext (Val.obj gfs)
      (by simpa using List.of_mem_filter hx))]
  rfl

theorem processNear_ok_or_typeErr (ext : GeoExt) :
    ∀ (sel : List (String × Val)) (list : List Val),
      (∃ out, processNearOperator ext sel list = .ok out) ∨
        processNearOperator ext sel list = .error .typeError := by
  intro sel
  induction sel with
  | nil =>
    intro list
    exact Or.inl ⟨list, rfl⟩
  | cons kv rest ih =>
    obtain ⟨key, value⟩ := kv
    intro list
    rcases hnv : getField? value "$near" with _ | nv
    · rw [show processNearOperator ext ((key, value) :: rest) list =
        processNearOperator ext rest list by simp [processNearOperator, hnv]]
      exact ih list
    · by_cases htr : truthy nv = true
      · rcases hgeo : getField? nv "$geometry" with _ | geo
        · right
          simp [processNearOperator, hnv, htr, hgeo]
        · cases geo with
          | null =>
            right
            simp [processNearOperator, hnv, htr, hgeo]
          | obj gfs =>
            by_cases hty : getField? (Val.obj gfs) "type" = some (Val.str "Point")
            · rw [nearStep_eq ext rest list hnv hgeo hty]
              exact ih _
            · left
              refine ⟨list, ?_⟩
              simp [processNearOperator, hnv, htr, hgeo, hty]
          | bool b =>
            exact Or.inl ⟨list, by
              simp [processNearOperator, hnv, htr, hgeo,
                show getField? (Val.bool b) "type" = none from rfl]⟩
          | num q =>
            exact Or.inl ⟨list, by
              simp [processNearOperator, hnv, htr, hgeo,
                show getField? (Val.num q) "type" = none from rfl]⟩
          | str s =>
            exact Or.inl ⟨list, by
              simp [processNearOperator, hnv, htr, hgeo,
                show getField? (Val.str s) "type" = none from rfl]⟩
          | arr xs =>
            exact Or.inl ⟨list, by
              simp [processNearOperator, hnv, htr, hgeo,
                show getField? (Val.arr xs) "type" = none from rfl]⟩
      · rw [show processNearOperator ext ((key, value) :: rest) list =
          processNearOperator ext rest list by simp [processNearOperator, hnv, htr]]
        exact ih list

theorem processGeo_ok_or_typeErr (ext : GeoExt) :
    ∀ (sel : List (String × Val)) (list : List Val),
      (∃ out, processGeoIntersectsOperator ext sel list = .ok out) ∨
        processGeoIntersectsOperator ext sel list = .error .typeError := by
  intro sel
  induction sel with
  | nil =>
    intro list
    exact Or.inl ⟨list, rfl⟩
  | cons kv rest ih =>
    obtain ⟨key, value⟩ := kv
    intro list
    rcases hgv : getField? value "$geoIntersects" with _ | gv
    · rw [show processGeoIntersectsOperator ext ((key, value) :: rest) list =
        processGeoIntersectsOperator ext rest list by simp [processGeoIntersectsOperator, hgv]]
      exact ih list
    · by_cases htr : truthy gv = true
      · rcases hgeo : getField? gv "$geometry" with _ | geo
        · right
          simp [processGeoIntersectsOperator, hgv, htr, hgeo]
        · cases geo with
          | null =>
            right
            simp [processGeoIntersectsOperator, hgv, htr, hgeo]
          | obj gfs =>
            by_cases hty : getField? (Val.obj gfs) "type" = some (Val.str "Polygon")
            · rw [show processGeoIntersectsOperator ext ((key, value) :: rest) list =
                processGeoIntersectsOperator ext rest
                  (list.filter (geoIntersectsMatch ext key (Val.obj gfs))) by
                    simp [processGeoIntersectsOperator, hgv, htr, hgeo, hty]]
              exact ih _
            · exact Or.inl ⟨list, by simp [processGeoIntersectsOperator, hgv, htr, hgeo, hty]⟩
          | bool b =>
            exact Or.inl ⟨list, by
              simp [processGeoIntersectsOperator, hgv, htr, hgeo,
                show getField? (Val.bool b) "type" = none from rfl]⟩
          | num q =>
            exact Or.inl ⟨list, by
              simp [processGeoIntersectsOperator, hgv, htr, hgeo,
                show getField? (Val.num q) "type" = none from rfl]⟩
          | str s =>
            exact Or.inl ⟨list, by
              simp [processGeoIntersectsOperator, hgv, htr, hgeo,
                show getField? (Val.str s) "type" = none from rfl]⟩
          | arr xs =>
            exact Or.inl ⟨list, by
              simp [processGeoIntersectsOperator, hgv, htr, hgeo,
                show getField? (Val.arr xs) "type" = none from rfl]⟩
      · rw [show processGeoIntersectsOperator ext ((key, value) :: rest) list =
          processGeoIntersectsOperator ext rest list by
            simp [processGeoIntersectsOperator, hgv, htr]]
        exact ih list

theorem processFind_ok_or_typeErr (ext : GeoExt) (items : List Val)
    (sel : List (String × Val)) (options : FindOptions) :
    (∃ out, processFind ext items sel options = .ok out) ∨
      processFind ext items sel options = .error .typeError := by
  unfold processFind
  rcases processNear_ok_or_typeErr ext sel (items.filter (compileDocumentSelector sel)) with
    ⟨out, h⟩ | h
  · rcases processGeo_ok_or_typeErr ext sel out with ⟨out2, h2⟩ | h2
    · simp only [h, h2]
      exact Or.inl ⟨_, rfl⟩
    · simp [h, h2]
  · simp [h]

theorem mem_nearKeyResult {ext : GeoExt} {nv geo : Val} {key : String} {list : List Val}
    {d : Val} :
    d ∈ nearKeyResult ext nv geo key list ↔
      d ∈ list ∧ nearTypeOk d key = true ∧ 0 ≤ distDoc ext geo key d ∧
        (truthyO (getField? nv "$maxDistance") = true →
          leMaxD (distDoc ext geo key d) (getField? nv "$maxDistance") = true) := by
  unfold nearKeyResult
  dsimp only
  by_cases hc : truthyO (getField? nv "$maxDistance") = true
  · rw [if_pos hc]
    simp only [List.mem_map, List.mem_filter, mem_sortByLe, decide_eq_true_eq]
    constructor
    · rintro ⟨p, ⟨⟨⟨x, ⟨hx1, hx2⟩, rfl⟩, h0⟩, hm⟩, rfl⟩
      exact ⟨hx1, by simpa using hx2, h0, fun _ => hm⟩
    · rintro ⟨h1, h2, h3, h4⟩
      exact ⟨(d, distDoc ext geo key d), ⟨⟨⟨d, ⟨h1, by simpa using h2⟩, rfl⟩, h3⟩, h4 hc⟩, rfl⟩
  · rw [if_neg hc]
    simp only [List.mem_map, List.mem_filter, mem_sortByLe, decide_eq_true_eq]
    constructor
    · rintro ⟨p, ⟨⟨x, ⟨hx1, hx2⟩, rfl⟩, h0⟩, rfl⟩
      exact ⟨hx1, by simpa using hx2, h0, fun hct => absurd hct hc⟩
    · rintro ⟨h1, h2, h3, _⟩
      exact ⟨(d, distDoc ext geo key d), ⟨⟨d, ⟨h1, by simpa using h2⟩, rfl⟩, h3⟩, rfl⟩

theorem pairwise_nearKeyResult {ext : GeoExt} {nv geo : Val} {key : String} {list : List Val} :
    (nearKeyResult ext nv geo key list).Pairwise
      (fun a b => distDoc ext geo key a ≤ distDoc ext geo key b) := by
  unfold nearKeyResult
  dsimp only
  have htrans : ∀ a b x : Val × ℚ, decide (a.2 ≤ b.2) = true → decide (b.2 ≤ x.2) = true →
      decide (a.2 ≤ x.2) = true := by
    intro a b x h1 h2
    exact decide_eq_true (le_trans (of_decide_eq_true h1) (of_decide_eq_true h2))
  have htotal : ∀ a b : Val × ℚ, decide (a.2 ≤ b.2) = true ∨ decide (b.2 ≤ a.2) = true := by
    intro a b
    rcases le_total a.2 b.2 with h | h
    · exact Or.inl (decide_eq_true h)
    · exact Or.inr (decide_eq_true h)
  have hsorted := pairwise_sortByLe htrans htotal
    (((list.filter (fun d => nearTypeOk d key)).map
      (fun d => (d, distDoc ext geo key d))).filter (fun p => decide (0 ≤ p.2)))
  have hinv : ∀ p ∈ sortByLe (fun p q : Val × ℚ => decide (p.2 ≤ q.2))
      (((list.filter (fun d => nearTypeOk d key)).map
        (fun d => (d, distDoc ext geo key d))).filter (fun p => decide (0 ≤ p.2))),
      p.2 = distDoc ext geo key p.1 := by
    intro p hp
    have hp1 := List.mem_of_mem_filter (mem_sortByLe.mp hp)
    obtain ⟨x, _, rfl⟩ := List.mem_map.mp hp1
    rfl
  by_cases hc : truthyO (getField? nv "$maxDistance") = true
  · rw [if_pos hc]
    refine List.pairwise_map.mpr ?_
    refine List.Pairwise.imp_of_mem ?_ ((hsorted.filter _))
    intro a b ha hb hab
    have ha' := hinv a (List.mem_of_mem_filter ha)
    have hb' := hinv b (List.mem_of_mem_filter hb)
    rw [← ha', ← hb']
    exact of_decide_eq_true hab
  · rw [if_neg hc]
    refine List.pairwise_map.mpr ?_
    refine List.Pairwise.imp_of_mem ?_ hsorted
    intro a b ha hb hab
    rw [← hinv a ha, ← hinv b hb]
    exact of_decide_eq_true hab

theorem skipStage_sublist (options : FindOptions) (l : List Val) :
    (skipStage options l).Sublist l := by
  unfold skipStage
  rcases options.skip with _ | k
  · exact List.Sublist.refl l
  · dsimp only
    by_cases hk : k = 0
    · rw [if_pos hk]
    · rw [if_neg hk]
      exact List.drop_sublist k l

theorem limitStage_sublist (options : FindOptions) (l : List Val) :
    (limitStage options l).Sublist l := by
  unfold limitStage
  rcases options.limit with _ | k
  · exact List.Sublist.refl l
  · dsimp only
    by_cases hk : k = 0
    · rw [if_pos hk]
    · rw [if_neg hk]
      exact List.take_sublist k l

/-! ### Concrete sample data for witnesses and counterexamples -/

/-- A concrete geometry bundle: the distance to a target is read off the
target's "d" field (a stand-in for real haversine distances). -/
def extSample : GeoExt where
  turfDistance := fun _ t =>
    match getField? t "d" with
    | some (.num q) => q
    | _ => 0
  nearestDist := fun _ _ => 5
  booleanPointInPolygon := fun _ _ => true
  intersect := fun _ _ => none
  booleanCrosses := fun _ _ => false
  booleanWithin := fun _ _ => false

/-- A geometry bundle with constant, provably nonnegative distances. -/
def extZero : GeoExt where
  turfDistance := fun _ _ => 0
  nearestDist := fun _ _ => 5
  booleanPointInPolygon := fun _ _ => true
  intersect := fun _ _ => none
  booleanCrosses := fun _ _ => false
  booleanWithin := fun _ _ => false

def geoPointSample : Val := .obj [("type", .str "Point")]

def docNear : Val :=
  .obj [("name", .str "z"), ("loc", .obj [("type", .str "Point"), ("d", .num 100)])]

def docFarther : Val :=
  .obj [("name", .str "y"), ("loc", .obj [("type", .str "Point"), ("d", .num 2000)])]

def nearSelSample : List (String × Val) :=
  [("loc", .obj [("$near", .obj [("$geometry", geoPointSample)])])]

/-! ### Claim theorems -/

/-- C2: `processFind` applies its stages in exactly this fixed order:
(1) compiled selector predicate filter, (2) `$near` stage, (3)
`$geoIntersects` stage, (4) `options.sort`, (5) skip, (6) limit, (7)
field projection; no stage runs before an earlier-numbered one, and
skip (`skipStage`) is applied before limit (`limitStage`). -/
theorem processFind_stage_order (ext : GeoExt) (items : List Val)
    (selector : List (String × Val)) (options : FindOptions) :
    processFind ext items selector options =
      (processNearOperator ext selector
          (items.filter (compileDocumentSelector selector))).bind
        (fun l2 => (processGeoIntersectsOperator ext selector l2).map
          (fun l3 =>
            fieldsStage options
              (limitStage options (skipStage options (sortStage options l3))))) := by
  unfold processFind
  cases hn : processNearOperator ext selector (items.filter (compileDocumentSelector selector)) with
  | error e => rfl
  | ok l2 =>
    cases hg : processGeoIntersectsOperator ext selector l2 with
    | error e => simp [hg, Except.bind, Except.map]
    | ok l3 => simp [hg, Except.bind, Except.map]

/-- C9 (implicit claim): the `throw new Error("Unsupported type")` branch
of `getDistance` is unreachable from the `$near` stage — the stage
filters to Point/LineString fields before computing any distance, so for
every document list and selector, `processNearOperator` (and hence
`processFind`) either succeeds or fails with the unrelated
missing-`$geometry` `TypeError`, never with
`GeoErr.unsupportedGeometry`. -/
theorem nearStage_no_unsupportedGeometry (ext : GeoExt) (selector : List (String × Val))
    (list items : List Val) (options : FindOptions) :
    ((∃ out, processNearOperator ext selector list = .ok out) ∨
        processNearOperator ext selector list = .error .typeError) ∧
      ((∃ out, processFind ext items selector options = .ok out) ∨
        processFind ext items selector options = .error .typeError) :=
  ⟨processNear_ok_or_typeErr ext selector list,
   processFind_ok_or_typeErr ext items selector options⟩

/-- C7: `getDistance` on a Point or LineString target returns a
nonnegative number (nonnegativity being the external turf primitives'
contract, taken as hypotheses), and throws the unsupported-type error
for a target geometry object of any other type. -/
theorem getDistance_contract (ext : GeoExt)
    (hpt : ∀ a b, 0 ≤ ext.turfDistance a b) (hln : ∀ a b, 0 ≤ ext.nearestDist a b)
    (gfrom : Val) (gfs : List (String × Val)) :
    ((getField? (Val.obj gfs) "type" = some (.str "Point") ∨
        getField? (Val.obj gfs) "type" = some (.str "LineString")) →
      ∃ r, getDistance ext gfrom (Val.obj gfs) = .ok r ∧ 0 ≤ r) ∧
    (getField? (Val.obj gfs) "type" ≠ some (.str "Point") →
      getField? (Val.obj gfs) "type" ≠ some (.str "LineString") →
      getDistance ext gfrom (Val.obj gfs) = .error .unsupportedGeometry) := by
  constructor
  · rintro (h | h)
    · exact ⟨ext.turfDistance gfrom (Val.obj gfs), by simp [getDistance, h], hpt _ _⟩
    · exact ⟨ext.nearestDist (Val.obj gfs) gfrom, by simp [getDistance, h], hln _ _⟩
  · intro h1 h2
    simp [getDistance, h1, h2]

/-- Witness for C7 at a concrete Point target and a concrete Polygon
target. -/
theorem getDistance_contract_witness :
    (∃ r, getDistance extZero Val.null (Val.obj [("type", Val.str "Point")]) = .ok r ∧ 0 ≤ r) ∧
      getDistance extZero Val.null (Val.obj [("type", Val.str "Polygon")]) =
        .error .unsupportedGeometry :=
  ⟨(getDistance_contract extZero (fun _ _ => le_refl 0) (fun _ _ => by norm_num [extZero]) Val.null
      [("type", Val.str "Point")]).1 (Or.inl rfl),
   (getDistance_contract extZero (fun _ _ => le_refl 0) (fun _ _ => by norm_num [extZero]) Val.null
      [("type", Val.str "Polygon")]).2 (by decide) (by decide)⟩

/-- C3 (amended): for a `$near` selector with a Point query geometry, the
stage removes documents whose target field is not a Point or LineString,
drops documents with *negative* (or, in JavaScript, NaN) computed
distance — distance exactly 0 is kept —, sorts the survivors ascending
by distance, and applies the `$maxDistance` ceiling only when the bound
is truthy (present and nonzero).  (The frozen claim said "non-positive
... dropped" and "when `$maxDistance` is present"; see the
counterexample.) -/
theorem processNear_point_query (ext : GeoExt) (key : String) (v nv geo : Val)
    (list : List Val) (hnv : getField? v "$near" = some nv)
    (hgeo : getField? nv "$geometry" = some geo)
    (hty : getField? geo "type" = some (.str "Point")) :
    processNearOperator ext [(key, v)] list = .ok (nearKeyResult ext nv geo key list) ∧
    (∀ d, d ∈ nearKeyResult ext nv geo key list ↔
      d ∈ list ∧ nearTypeOk d key = true ∧ 0 ≤ distDoc ext geo key d ∧
        (truthyO (getField? nv "$maxDistance") = true →
          leMaxD (distDoc ext geo key d) (getField? nv "$maxDistance") = true)) ∧
    (nearKeyResult ext nv geo key list).Pairwise
      (fun a b => distDoc ext geo key a ≤ distDoc ext geo key b) := by
  refine ⟨?_, fun d => mem_nearKeyResult, pairwise_nearKeyResult⟩
  rw [nearStep_eq ext [] list hnv hgeo hty]
  rfl

/-- Witness for C3 at the spec's own end-to-end example: documents at
100 m and 2000 m, `$maxDistance: 1000` — only the 100 m document
survives, first. -/
theorem processNear_point_query_witness :
    processNearOperator extSample
        [("loc", .obj [("$near", .obj [("$geometry", geoPointSample),
          ("$maxDistance", .num 1000)])])] [docFarther, docNear] =
      .ok (nearKeyResult extSample
        (.obj [("$geometry", geoPointSample), ("$maxDistance", .num 1000)])
        geoPointSample "loc" [docFarther, docNear]) ∧
    docNear ∈ nearKeyResult extSample
      (.obj [("$geometry", geoPointSample), ("$maxDistance", .num 1000)])
      geoPointSample "loc" [docFarther, docNear] ∧
    nearKeyResult extSample
        (.obj [("$geometry", geoPointSample), ("$maxDistance", .num 1000)])
        geoPointSample "loc" [docFarther, docNear] = [docNear] :=
  ⟨(processNear_point_query extSample "loc"
      (.obj [("$near", .obj [("$geometry", geoPointSample), ("$maxDistance", .num 1000)])])
      (.obj [("$geometry", geoPointSample), ("$maxDistance", .num 1000)])
      geoPointSample [docFarther, docNear] rfl rfl rfl).1,
   ((processNear_point_query extSample "loc"
      (.obj [("$near", .obj [("$geometry", geoPointSample), ("$maxDistance", .num 1000)])])
      (.obj [("$geometry", geoPointSample), ("$maxDistance", .num 1000)])
      geoPointSample [docFarther, docNear] rfl rfl rfl).2.1 docNear).mpr (by decide),
   by decide⟩

/-- C3 counterexample: with `$maxDistance: 0` (present) and a document at
distance exactly 0, the claim as stated predicts the empty output (the
0-distance document is "non-positive", the 2000 m document exceeds the
present `$maxDistance`), but the code keeps both: `distance >= 0` keeps
0, and the falsy bound `0` disables the ceiling entirely. -/
theorem processNear_counterexample :
    processNearOperator extSample
        [("loc", .obj [("$near", .obj [("$geometry", geoPointSample),
          ("$maxDistance", .num 0)])])]
        [docFarther, .obj [("name", .str "z"),
          ("loc", .obj [("type", .str "Point"), ("d", .num 0)])]] =
      .ok [.obj [("name", .str "z"), ("loc", .obj [("type", .str "Point"), ("d", .num 0)])],
        docFarther] ∧
    distDoc extSample geoPointSample "loc"
      (.obj [("name", .str "z"), ("loc", .obj [("type", .str "Point"), ("d", .num 0)])]) = 0 ∧
    distDoc extSample geoPointSample "loc" docFarther = 2000 ∧
    getField? (.obj [("$geometry", geoPointSample), ("$maxDistance", .num 0)])
      "$maxDistance" = some (.num 0) := by
  decide

/-- C1 (amended): the `options.sort` stage is *not* skipped when the
selector contains `$near`: whenever `processFind` succeeds under a sort
specification (no field projection), the output is ordered by the
compiled sort comparator — applied after, and overriding, the `$near`
distance order. -/
theorem processFind_sort_not_skipped (ext : GeoExt) (items : List Val)
    (selector : List (String × Val)) (s : List (String × Bool))
    (sk lim : Option ℕ) (out : List Val)
    (h : processFind ext items selector
      { sort := some s, skip := sk, limit := lim, fields := none } = .ok out) :
    out.Pairwise (fun a b => sortLe s a b = true) := by
  unfold processFind at h
  cases hn : processNearOperator ext selector
      (items.filter (compileDocumentSelector selector)) with
  | error e =>
    simp only [hn] at h
    exact absurd h (by simp)
  | ok l2 =>
    simp only [hn] at h
    cases hg : processGeoIntersectsOperator ext selector l2 with
    | error e =>
      simp only [hg] at h
      exact absurd h (by simp)
    | ok l3 =>
      simp only [hg, Except.ok.injEq] at h
      subst h
      have hsorted : (sortByLe (sortLe s) l3).Pairwise (fun a b => sortLe s a b = true) :=
        pairwise_sortByLe (sortLe_trans s) (sortLe_total s) l3
      exact List.Pairwise.sublist
        ((limitStage_sublist _ _).trans (skipStage_sublist _ _)) hsorted

/-- Witness for C1's amended theorem at a concrete `$near` query whose
distance order (docNear first) is overridden by the name sort. -/
theorem processFind_sort_not_skipped_witness :
    List.Pairwise (fun a b => sortLe [("name", true)] a b = true) [docFarther, docNear] :=
  processFind_sort_not_skipped extSample [docNear, docFarther] nearSelSample [("name", true)]
    none none [docFarther, docNear] (by decide)

/-- C1 counterexample: a `$near` selector puts `docNear` (100 m) before
`docFarther` (2000 m), but with `options.sort` on `name` the output is
the sort order `[docFarther, docNear]`, not the distance order — the
sort stage is not skipped. -/
theorem sortSkipped_counterexample :
    processFind extSample [docNear, docFarther] nearSelSample
      { sort := some [("name", true)] } = .ok [docFarther, docNear] ∧
    distDoc extSample geoPointSample "loc" docNear <
      distDoc extSample geoPointSample "loc" docFarther ∧
    [docFarther, docNear] ≠ [docNear, docFarther] := by
  decide

/-- C5 (amended): a `$near` whose `$geometry` is not a Point, or a
`$geoIntersects` whose `$geometry` is not a Polygon, does *not* raise a
MalformedGeometry error: evaluation `break`s out of the geo stage and
silently passes the current document list through unchanged.  (The
spec-modelled compiled predicate treats the geo operators as
unconditionally-true post-filter markers, per the spec §4.1.) -/
theorem malformedGeometry_passthrough (ext : GeoExt) (key : String) (v nv geo : Val)
    (list : List Val) :
    (getField? v "$near" = some nv → getField? nv "$geometry" = some geo →
      geo ≠ Val.null → getField? geo "type" ≠ some (.str "Point") →
      processNearOperator ext [(key, v)] list = .ok list) ∧
    (getField? v "$geoIntersects" = some nv → getField? nv "$geometry" = some geo →
      geo ≠ Val.null → getField? geo "type" ≠ some (.str "Polygon") →
      processGeoIntersectsOperator ext [(key, v)] list = .ok list) := by
  constructor
  · intro hnv hgeo hnull hty
    have htr : truthy nv = true := truthy_of_getField hgeo
    cases geo with
    | null => exact absurd rfl hnull
    | obj gfs => simp [processNearOperator, hnv, htr, hgeo, hty]
    | bool b =>
      simp [processNearOperator, hnv, htr, hgeo,
        show getField? (Val.bool b) "type" = none from rfl]
    | num q =>
      simp [processNearOperator, hnv, htr, hgeo,
        show getField? (Val.num q) "type" = none from rfl]
    | str s =>
      simp [processNearOperator, hnv, htr, hgeo,
        show getField? (Val.str s) "type" = none from rfl]
    | arr xs =>
      simp [processNearOperator, hnv, htr, hgeo,
        show getField? (Val.arr xs) "type" = none from rfl]
  · intro hgv hgeo hnull hty
    have htr : truthy nv = true := truthy_of_getField hgeo
    cases geo with
    | null => exact absurd rfl hnull
    | obj gfs => simp [processGeoIntersectsOperator, hgv, htr, hgeo, hty]
    | bool b =>
      simp [processGeoIntersectsOperator, hgv, htr, hgeo,
        show getField? (Val.bool b) "type" = none from rfl]
    | num q =>
      simp [processGeoIntersectsOperator, hgv, htr, hgeo,
        show getField? (Val.num q) "type" = none from rfl]
    | str s =>
      simp [processGeoIntersectsOperator, hgv, htr, hgeo,
        show getField? (Val.str s) "type" = none from rfl]
    | arr xs =>
      simp [processGeoIntersectsOperator, hgv, htr, hgeo,
        show getField? (Val.arr xs) "type" = none from rfl]

/-- Witness for C5's amended theorem: a `$near` with a Polygon
`$geometry` leaves the list untouched. -/
theorem malformedGeometry_passthrough_witness :
    processNearOperator extSample
        [("loc", .obj [("$near", .obj [("$geometry", .obj [("type", .str "Polygon")])])])]
        [docNear] = .ok [docNear] :=
  (malformedGeometry_passthrough extSample "loc"
      (.obj [("$near", .obj [("$geometry", .obj [("type", .str "Polygon")])])])
      (.obj [("$geometry", .obj [("type", .str "Polygon")])])
      (.obj [("type", .str "Polygon")]) [docNear]).1 rfl rfl (by decide) (by decide)

/-- C5 counterexample: end to end, a `$near` carrying a Polygon
`$geometry` (malformed for the operator) makes `processFind` return the
document untouched — it silently passes documents through instead of
failing with a MalformedGeometry error. -/
theorem malformedGeometry_counterexample :
    processFind extSample [docNear]
        [("loc", .obj [("$near", .obj [("$geometry", .obj [("type", .str "Polygon")])])])]
        {} = .ok [docNear] ∧
    processGeoIntersectsOperator extSample
        [("g", .obj [("$geoIntersects", .obj [("$geometry", geoPointSample)])])]
        [docNear] = .ok [docNear] := by
  decide

theorem geoStep_single (ext : GeoExt) {key : String} {v gv geo : Val} (list : List Val)
    (hgv : getField? v "$geoIntersects" = some gv)
    (hgeo : getField? gv "$geometry" = some geo)
    (hty : getField? geo "type" = some (.str "Polygon")) :
    processGeoIntersectsOperator ext [(key, v)] list =
      .ok (list.filter (geoIntersectsMatch ext key geo)) := by
  obtain ⟨gfs, rfl⟩ := getField?_some_obj hty
  have htr : truthy gv = true := truthy_of_getField hgeo
  simp [processGeoIntersectsOperator, hgv, htr, hgeo, hty]

theorem geoMatch_multiLineString (ext : GeoExt) (key : String) (geo d f : Val)
    (hf : getField? d key = some f)
    (hty : getField? f "type" = some (.str "MultiLineString")) :
    geoIntersectsMatch ext key geo d = true ↔
      ∃ line ∈ coordsOf f, line ≠ Val.arr [] ∧
        (ext.booleanCrosses (lineStringOf line) geo = true ∨
         ext.booleanWithin (lineStringOf line) geo = true) := by
  have htr : truthy f = true := truthy_of_getField hty
  unfold geoIntersectsMatch
  rw [hf]
  simp [htr, hty, List.any_eq_true]

theorem geoMatch_emptyLineString (ext : GeoExt) (key : String) (geo d f : Val)
    (hf : getField? d key = some f)
    (hty : getField? f "type" = some (.str "LineString"))
    (hemp : coordsOf f = []) :
    geoIntersectsMatch ext key geo d = false := by
  have htr : truthy f = true := truthy_of_getField hty
  unfold geoIntersectsMatch
  rw [hf]
  simp [htr, hty, hemp]

theorem geoMatch_multiPolygon (ext : GeoExt) (key : String) (geo d f : Val)
    (hf : getField? d key = some f)
    (hty : getField? f "type" = some (.str "MultiPolygon")) :
    geoIntersectsMatch ext key geo d = true ↔ (ext.intersect f geo).isSome = true := by
  have htr : truthy f = true := truthy_of_getField hty
  unfold geoIntersectsMatch polygonIntersection
  rw [hf]
  simp [htr, hty]

/-- C8 (amended): in the `$geoIntersects` stage with a Polygon query
geometry, a MultiLineString target field decomposes into per-part
evaluation with logical OR and empty-coordinate line parts skipped, and
a bare LineString with empty coordinates never matches; a MultiPolygon
target, however, is passed whole to the polygon-intersection primitive,
NOT decomposed per part (see the counterexample). -/
theorem geoIntersects_multiGeometry (ext : GeoExt) (key : String) (v gv geo : Val)
    (list : List Val) (d f : Val)
    (hgv : getField? v "$geoIntersects" = some gv)
    (hgeo : getField? gv "$geometry" = some geo)
    (hty : getField? geo "type" = some (.str "Polygon"))
    (hf : getField? d key = some f) :
    processGeoIntersectsOperator ext [(key, v)] list =
      .ok (list.filter (geoIntersectsMatch ext key geo)) ∧
    (getField? f "type" = some (.str "MultiLineString") →
      (geoIntersectsMatch ext key geo d = true ↔
        ∃ line ∈ coordsOf f, line ≠ Val.arr [] ∧
          (ext.booleanCrosses (lineStringOf line) geo = true ∨
           ext.booleanWithin (lineStringOf line) geo = true))) ∧
    (getField? f "type" = some (.str "LineString") → coordsOf f = [] →
      geoIntersectsMatch ext key geo d = false) ∧
    (getField? f "type" = some (.str "MultiPolygon") →
      (geoIntersectsMatch ext key geo d = true ↔ (ext.intersect f geo).isSome = true)) :=
  ⟨geoStep_single ext list hgv hgeo hty,
   fun h => geoMatch_multiLineString ext key geo d f hf h,
   fun h he => geoMatch_emptyLineString ext key geo d f hf h he,
   fun h => geoMatch_multiPolygon ext key geo d f hf h⟩

def geoPolySample : Val := .obj [("type", .str "Polygon")]

/-- A geometry bundle whose line predicates always hold. -/
def extCrossAll : GeoExt where
  turfDistance := fun _ _ => 0
  nearestDist := fun _ _ => 0
  booleanPointInPolygon := fun _ _ => true
  intersect := fun _ _ => some (.num 1)
  booleanCrosses := fun _ _ => true
  booleanWithin := fun _ _ => true

def vML : Val := .obj [("$geoIntersects", .obj [("$geometry", geoPolySample)])]

def fML : Val :=
  .obj [("type", .str "MultiLineString"), ("coordinates", .arr [.arr [], .arr [.num 1]])]

def dML : Val := .obj [("g", fML)]

def fLE : Val := .obj [("type", .str "LineString"), ("coordinates", .arr [])]

def dLE : Val := .obj [("g", fLE)]

/-- Witness for C8's amended theorem: a MultiLineString with one empty
part and one nonempty part matches through the nonempty part; the empty
bare LineString never matches. -/
theorem geoIntersects_multiGeometry_witness :
    processGeoIntersectsOperator extCrossAll [("g", vML)] [dML, dLE] = .ok [dML] ∧
    geoIntersectsMatch extCrossAll "g" geoPolySample dML = true ∧
    geoIntersectsMatch extCrossAll "g" geoPolySample dLE = false := by
  have h1 := geoIntersects_multiGeometry extCrossAll "g" vML
    (.obj [("$geometry", geoPolySample)]) geoPolySample [dML, dLE] dML fML rfl rfl rfl rfl
  have h2 := geoIntersects_multiGeometry extCrossAll "g" vML
    (.obj [("$geometry", geoPolySample)]) geoPolySample [dML, dLE] dLE fLE rfl rfl rfl rfl
  refine ⟨?_, ?_, h2.2.2.1 rfl rfl⟩
  · rw [h1.1]
    decide
  · exact (h1.2.1 rfl).mpr ⟨Val.arr [.num 1], by decide, by decide, Or.inl (by decide)⟩

/-- A geometry bundle that reports no intersection for a whole
MultiPolygon but an intersection for every other (e.g. per-part Polygon)
input — realizable behaviour of the external primitive, which the code
consults on the whole multi-geometry. -/
def extMPWhole : GeoExt where
  turfDistance := fun _ _ => 0
  nearestDist := fun _ _ => 0
  booleanPointInPolygon := fun _ _ => true
  intersect := fun a _ =>
    match getField? a "type" with
    | some (.str "MultiPolygon") => none
    | _ => some (.num 1)
  booleanCrosses := fun _ _ => true
  booleanWithin := fun _ _ => true

def fMP : Val :=
  .obj [("type", .str "MultiPolygon"), ("coordinates", .arr [.arr [.num 0]])]

def dMP : Val := .obj [("g", fMP)]

/-- C8 counterexample: the MultiPolygon target is passed whole to the
intersection primitive, not decomposed per part: with a primitive whose
whole-MultiPolygon answer is "no intersection" while the single part
(as a Polygon) intersects, the claim's per-part OR predicts a match,
but the code excludes the document. -/
theorem multiPolygon_not_decomposed_counterexample :
    processGeoIntersectsOperator extMPWhole
        [("g", .obj [("$geoIntersects", .obj [("$geometry", geoPolySample)])])] [dMP] =
      .ok [] ∧
    coordsOf fMP = [.arr [.num 0]] ∧
    (extMPWhole.intersect (.obj [("type", .str "Polygon"),
      ("coordinates", .arr [.num 0])]) geoPolySample).isSome = true := by
  decide

theorem uidGo_length (r : ℕ → Fin 16) :
    ∀ (cs : List Char) (k : ℕ), (uidGo r cs k).length = cs.length
  | [], _ => rfl
  | c :: cs, k => by
    unfold uidGo
    split_ifs <;> simp [uidGo_length r cs]

theorem hexDigit_hex : ∀ v : Fin 16, isHexChar (Nat.digitChar v.val) = true := by decide

theorem yDigit_hex : ∀ v : Fin 16, isHexChar (Nat.digitChar (v.val % 4 + 8)) = true := by decide

theorem yDigit_cases : ∀ v : Fin 16,
    Nat.digitChar (v.val % 4 + 8) = '8' ∨ Nat.digitChar (v.val % 4 + 8) = '9' ∨
      Nat.digitChar (v.val % 4 + 8) = 'a' ∨ Nat.digitChar (v.val % 4 + 8) = 'b' := by decide

theorem uidGo_mem_hex (r : ℕ → Fin 16) :
    ∀ (cs : List Char) (k : ℕ), (∀ c ∈ cs, c = 'x' ∨ c = 'y' ∨ isHexChar c = true) →
      ∀ c' ∈ uidGo r cs k, isHexChar c' = true := by
  intro cs
  induction cs with
  | nil =>
    intro k _ c' hc'
    simp [uidGo] at hc'
  | cons c cs ih =>
    intro k hall c' hc'
    unfold uidGo at hc'
    rcases hall c (List.mem_cons_self c cs) with hx | hy | hhex
    · subst hx
      rw [if_pos rfl] at hc'
      rcases List.mem_cons.mp hc' with h | h
      · subst h
        exact hexDigit_hex (r k)
      · exact ih (k + 1) (fun a ha => hall a (List.mem_cons_of_mem _ ha)) c' h
    · subst hy
      rw [if_neg (by decide), if_pos rfl] at hc'
      rcases List.mem_cons.mp hc' with h | h
      · subst h
        exact yDigit_hex (r k)
      · exact ih (k + 1) (fun a ha => hall a (List.mem_cons_of_mem _ ha)) c' h
    · by_cases hcx : c = 'x'
      · subst hcx
        rw [if_pos rfl] at hc'
        rcases List.mem_cons.mp hc' with h | h
        · subst h
          exact hexDigit_hex (r k)
        · exact ih (k + 1) (fun a ha => hall a (List.mem_cons_of_mem _ ha)) c' h
      · by_cases hcy : c = 'y'
        · subst hcy
          rw [if_neg (by decide), if_pos rfl] at hc'
          rcases List.mem_cons.mp hc' with h | h
          · subst h
            exact yDigit_hex (r k)
          · exact ih (k + 1) (fun a ha => hall a (List.mem_cons_of_mem _ ha)) c' h
        · rw [if_neg hcx, if_neg hcy] at hc'
          rcases List.mem_cons.mp hc' with h | h
          · subst h
            exact hhex
          · exact ih k (fun a ha => hall a (List.mem_cons_of_mem _ ha)) c' h

theorem uidGo_get_plain (r : ℕ → Fin 16) :
    ∀ (cs : List Char) (k i : ℕ) (c : Char), cs.get? i = some c → c ≠ 'x' → c ≠ 'y' →
      (uidGo r cs k).get? i = some c := by
  intro cs
  induction cs with
  | nil =>
    intro k i c hc _ _
    simp at hc
  | cons c0 cs ih =>
    intro k i c hc hx hy
    cases i with
    | zero =>
      simp only [List.get?] at hc
      injection hc with hc
      subst hc
      unfold uidGo
      rw [if_neg hx, if_neg hy]
      rfl
    | succ i =>
      simp only [List.get?] at hc
      unfold uidGo
      split_ifs <;> exact ih _ i c hc hx hy

theorem uidGo_get_y (r : ℕ → Fin 16) :
    ∀ (cs : List Char) (k i : ℕ), cs.get? i = some 'y' →
      ∃ k', (uidGo r cs k).get? i = some (Nat.digitChar ((r k').val % 4 + 8)) := by
  intro cs
  induction cs with
  | nil =>
    intro k i hc
    simp at hc
  | cons c0 cs ih =>
    intro k i hc
    cases i with
    | zero =>
      simp only [List.get?] at hc
      injection hc with hc
      subst hc
      refine ⟨k, ?_⟩
      unfold uidGo
      rw [if_neg (by decide), if_pos rfl]
      rfl
    | succ i =>
      simp only [List.get?] at hc
      unfold uidGo
      split_ifs <;> exact ih _ i hc

theorem createUid_shape (r : ℕ → Fin 16) : uidShape (createUid r) := by
  unfold createUid uidShape
  refine ⟨?_, ?_, ?_, ?_⟩
  · show (String.mk (uidGo r "xxxxxxxxxxxx4xxxyxxxxxxxxxxxxxxx".data 0)).length = 32
    simp only [String.length]
    rw [uidGo_length]
    rfl
  · intro c hc
    exact uidGo_mem_hex r _ 0 (by decide) c hc
  · exact uidGo_get_plain r _ 0 12 '4' (by decide) (by decide) (by decide)
  · obtain ⟨k', hk'⟩ := uidGo_get_y r "xxxxxxxxxxxx4xxxyxxxxxxxxxxxxxxx".data 0 16 (by decide)
    exact ⟨Nat.digitChar ((r k').val % 4 + 8), hk', yDigit_cases (r k')⟩

theorem createUid_ne_empty (r : ℕ → Fin 16) : createUid r ≠ "" := by
  intro h
  have := (createUid_shape r).1
  rw [h] at this
  simp [String.length] at this

theorem lookup_setAssoc : ∀ (fs : List (String × Val)) (k : String) (w : Val),
    lookupField (setAssoc fs k w) k = some w
  | [], k, w => by simp [setAssoc, lookupField]
  | (k', v') :: rest, k, w => by
    unfold setAssoc
    by_cases hk : k' = k
    · rw [if_pos hk]
      simp [lookupField, hk]
    · rw [if_neg hk]
      simp [lookupField, hk, lookup_setAssoc rest k w]

theorem missBefore_zero (pairs : List (Val × Option Val)) : missBefore pairs 0 = 0 := by
  simp [missBefore]

theorem missBefore_cons_succ (d : Val) (b : Option Val)
    (rest : List (Val × Option Val)) (i : ℕ) :
    missBefore ((d, b) :: rest) (i + 1) =
      (if truthyO (getField? d "_id") then 0 else 1) + missBefore rest i := by
  unfold missBefore
  by_cases ht : truthyO (getField? d "_id")
  · simp [List.take, List.filter, ht]
  · simp [List.take, List.filter, ht]
    omega

theorem checkItems_ok_get (fresh : ℕ → String) :
    ∀ (pairs : List (Val × Option Val)) (k : ℕ) (out : List (Val × Option Val)),
      checkItems fresh pairs k = .ok out →
      ∀ i, out.get? i = (pairs.get? i).map
        (fun p => (assignDoc fresh (k + missBefore pairs i) p.1, p.2)) := by
  intro pairs
  induction pairs with
  | nil =>
    intro k out h i
    simp only [checkItems, Except.ok.injEq] at h
    subst h
    simp
  | cons p rest ih =>
    obtain ⟨d, b⟩ := p
    intro k out h i
    unfold checkItems at h
    cases hcb : checkBase (getField? (assignDoc fresh k d) "_id") b with
    | some e =>
      simp only [hcb] at h
      exact absurd h (by simp)
    | none =>
      simp only [hcb] at h
      cases hrec : checkItems fresh rest (if truthyO (getField? d "_id") then k else k + 1) with
      | error e =>
        simp only [hrec] at h
        exact absurd h (by simp)
      | ok out' =>
        simp only [hrec, Except.ok.injEq] at h
        subst h
        cases i with
        | zero =>
          simp [missBefore_zero]
        | succ i =>
          simp only [List.get?]
          rw [ih _ _ hrec i, missBefore_cons_succ]
          by_cases ht : truthyO (getField? d "_id") <;> simp [ht] <;> ring_nf

theorem checkItems_ok_length (fresh : ℕ → String) :
    ∀ (pairs : List (Val × Option Val)) (k : ℕ) (out : List (Val × Option Val)),
      checkItems fresh pairs k = .ok out → out.length = pairs.length := by
  intro pairs
  induction pairs with
  | nil =>
    intro k out h
    simp only [checkItems, Except.ok.injEq] at h
    subst h
    rfl
  | cons p rest ih =>
    obtain ⟨d, b⟩ := p
    intro k out h
    unfold checkItems at h
    cases hcb : checkBase (getField? (assignDoc fresh k d) "_id") b with
    | some e =>
      simp only [hcb] at h
      exact absurd h (by simp)
    | none =>
      simp only [hcb] at h
      cases hrec : checkItems fresh rest (if truthyO (getField? d "_id") then k else k + 1) with
      | error e =>
        simp only [hrec] at h
        exact absurd h (by simp)
      | ok out' =>
        simp only [hrec, Except.ok.injEq] at h
        subst h
        simp [ih _ _ hrec]

theorem pairItems_length : ∀ (ds : List Val) (bs : List (Option Val)),
    (pairItems ds bs).length = ds.length
  | [], _ => rfl
  | _ :: ds, [] => by simp [pairItems, pairItems_length ds []]
  | _ :: ds, _ :: bs => by simp [pairItems, pairItems_length ds bs]

theorem jsStrictNe_eq : ∀ {a b : Option Val}, jsStrictNe a b = false → truthyO a = true →
    a = b := by
  intro a b h ht
  rcases a with _ | av
  · simp [truthyO] at ht
  · rcases b with _ | bv
    · rcases av with _ | _ | _ | _ | _ | _ <;> simp_all [jsStrictNe, truthyO, truthy]
    · rcases av with _ | x | x | x | x | x <;> rcases bv with _ | y | y | y | y | y <;>
        simp_all [jsStrictNe, truthyO, truthy]

theorem checkBase_none_spec {dId : Option Val} {bv : Val}
    (hcb : checkBase dId (some bv) = none) (ht : truthy bv = true) :
    truthyO (getField? bv "_id") = true ∧ getField? bv "_id" = dId := by
  unfold checkBase at hcb
  dsimp only at hcb
  rw [if_pos ht] at hcb
  split_ifs at hcb with h1 h2
  · have h1' : truthyO (getField? bv "_id") = true := by
      cases hbv : truthyO (getField? bv "_id")
      · exact absurd hbv h1
      · rfl
    have h2' : jsStrictNe (getField? bv "_id") dId = false := by
      cases hne : jsStrictNe (getField? bv "_id") dId
      · rfl
      · exact absurd hne h2
    exact ⟨h1', jsStrictNe_eq h2' h1'⟩

theorem checkItems_ok_good (fresh : ℕ → String) :
    ∀ (pairs : List (Val × Option Val)) (k : ℕ) (out : List (Val × Option Val)),
      checkItems fresh pairs k = .ok out →
      ∀ p ∈ out, ∀ bv, p.2 = some bv → truthy bv = true →
        truthyO (getField? bv "_id") = true ∧ getField? bv "_id" = getField? p.1 "_id" := by
  intro pairs
  induction pairs with
  | nil =>
    intro k out h p hp bv hbv htr
    simp only [checkItems, Except.ok.injEq] at h
    subst h
    simp at hp
  | cons pr rest ih =>
    obtain ⟨d, b⟩ := pr
    intro k out h p hp bv hbv htr
    unfold checkItems at h
    cases hcb : checkBase (getField? (assignDoc fresh k d) "_id") b with
    | some e =>
      simp only [hcb] at h
      exact absurd h (by simp)
    | none =>
      simp only [hcb] at h
      cases hrec : checkItems fresh rest (if truthyO (getField? d "_id") then k else k + 1) with
      | error e =>
        simp only [hrec] at h
        exact absurd h (by simp)
      | ok out' =>
        simp only [hrec, Except.ok.injEq] at h
        subst h
        rcases List.mem_cons.mp hp with rfl | hmem
        · dsimp only at hbv ⊢
          rw [hbv] at hcb
          exact checkBase_none_spec hcb htr
        · exact ih _ _ hrec p hmem bv hbv htr

/-- C6: `regularizeUpsert` normalizes heterogeneous single/array input to
a same-length sequence of `(doc, base?)` pairs, assigns a freshly
generated id to any (object) doc lacking one, and succeeds exactly when
every supplied (truthy) base carries a truthy `_id` equal to its paired
doc's `_id` — otherwise it throws one of the two BaseIdMismatch errors.
Stated through the success side: on `.ok out`, the output has one pair
per normalized doc, every supplied base's `_id` is truthy and equals the
paired doc's `_id` (so a base lacking an id, or with a differing id,
makes every run fail), and every object doc ends up with a truthy id. -/
theorem regularizeUpsert_spec (streams : ℕ → ℕ → Fin 16) (docs : UpsertInput)
    (bases : Option UpsertInput) (out : List (Val × Option Val))
    (h : regularizeUpsert streams docs bases = .ok out) :
    out.length = (normDocs docs).length ∧
    (∀ p ∈ out, ∀ bv, p.2 = some bv → truthy bv = true →
      truthyO (getField? bv "_id") = true ∧ getField? bv "_id" = getField? p.1 "_id") ∧
    (∀ i d b, (pairItems (normDocs docs) (normBases docs bases)).get? i = some (d, b) →
      (∃ fs, d = Val.obj fs) →
      ∃ p, out.get? i = some p ∧ p.2 = b ∧ truthyO (getField? p.1 "_id") = true) := by
  refine ⟨?_, checkItems_ok_good _ _ _ _ h, ?_⟩
  · rw [checkItems_ok_length _ _ _ _ h, pairItems_length]
  · intro i d b hi hobj
    have hg := checkItems_ok_get _ _ _ _ h i
    rw [hi, Option.map_some'] at hg
    obtain ⟨fs, rfl⟩ := hobj
    refine ⟨_, hg, rfl, ?_⟩
    dsimp only
    unfold assignDoc
    by_cases ht : truthyO (getField? (Val.obj fs) "_id") = true
    · rw [if_pos ht]
      exact ht
    · rw [if_neg ht]
      rw [show getField? (setField (Val.obj fs) "_id"
          (.str (createUid (streams (0 + missBefore (pairItems (normDocs docs)
            (normBases docs bases)) i))))) "_id" =
          some (.str (createUid (streams (0 + missBefore (pairItems (normDocs docs)
            (normBases docs bases)) i)))) from by
        simp [setField, getField?, lookup_setAssoc]]
      simpa [truthyO, truthy] using createUid_ne_empty _

/-- C10 (implicit): every id auto-generated during upsert normalization
for an (object) document lacking a truthy `_id` is a `createUid` output:
a 32-character string over the lowercase hexadecimal alphabet whose
character at index 12 is '4' and whose character at index 16 is one of
'8', '9', 'a', 'b' — for every sequence of random draws. -/
theorem regularizeUpsert_uid_shape (streams : ℕ → ℕ → Fin 16) (docs : UpsertInput)
    (bases : Option UpsertInput) (out : List (Val × Option Val))
    (h : regularizeUpsert streams docs bases = .ok out)
    (i : ℕ) (d : Val) (b : Option Val)
    (hi : (pairItems (normDocs docs) (normBases docs bases)).get? i = some (d, b))
    (hmiss : truthyO (getField? d "_id") = false)
    (fs : List (String × Val)) (hd : d = Val.obj fs) :
    ∃ u p, out.get? i = some p ∧ getField? p.1 "_id" = some (.str u) ∧ uidShape u := by
  have hg := checkItems_ok_get _ _ _ _ h i
  rw [hi, Option.map_some'] at hg
  subst hd
  refine ⟨createUid (streams (0 + missBefore (pairItems (normDocs docs)
    (normBases docs bases)) i)), _, hg, ?_, createUid_shape _⟩
  dsimp only
  unfold assignDoc
  rw [if_neg (by rw [hmiss]; simp)]
  simp [setField, getField?, lookup_setAssoc]

/-- Witness for C10: a single no-id document with the all-zero random
stream receives the id `"00000000000040008000000000000000"`, which has
the claimed shape. -/
theorem regularizeUpsert_uid_shape_witness :
    ∃ u p,
      [(setField (.obj [("x", .num 1)]) "_id" (.str (createUid (fun _ => (0 : Fin 16)))),
        (none : Option Val))].get? 0 = some p ∧
      getField? p.1 "_id" = some (.str u) ∧ uidShape u :=
  regularizeUpsert_uid_shape (fun _ _ => (0 : Fin 16)) (.single (.obj [("x", .num 1)])) none
    _ (by decide) 0 (.obj [("x", .num 1)]) none rfl rfl [("x", .num 1)] rfl

/-- Witness for C6: two docs (one without id, one with), one null base
and one matching base; the hypotheses of the claim theorem hold at this
concrete input. -/
theorem regularizeUpsert_spec_witness :
    ∃ out, regularizeUpsert (fun _ _ => (0 : Fin 16))
        (.many [.obj [("x", .num 1)], .obj [("_id", .str "id1"), ("x", .num 2)]])
        (some (.many [.null, .obj [("_id", .str "id1")]])) = .ok out ∧
      out.length = (normDocs (.many [.obj [("x", .num 1)],
        .obj [("_id", .str "id1"), ("x", .num 2)]])).length ∧
      (∀ p ∈ out, ∀ bv, p.2 = some bv → truthy bv = true →
        truthyO (getField? bv "_id") = true ∧ getField? bv "_id" = getField? p.1 "_id") := by
  refine ⟨[(setField (.obj [("x", .num 1)]) "_id"
      (.str (createUid (fun _ => (0 : Fin 16)))), some .null),
    (.obj [("_id", .str "id1"), ("x", .num 2)], some (.obj [("_id", .str "id1")]))], by decide,
    ?_, ?_⟩
  · exact (regularizeUpsert_spec (fun _ _ => (0 : Fin 16))
      (.many [.obj [("x", .num 1)], .obj [("_id", .str "id1"), ("x", .num 2)]])
      (some (.many [.null, .obj [("_id", .str "id1")]])) _ (by decide)).1
  · exact (regularizeUpsert_spec (fun _ _ => (0 : Fin 16))
      (.many [.obj [("x", .num 1)], .obj [("_id", .str "id1"), ("x", .num 2)]])
      (some (.many [.null, .obj [("_id", .str "id1")]])) _ (by decide)).2.1

theorem existWalk_none : ∀ rest : List String, existWalk none rest = none
  | [] => rfl
  | _ :: rest => existWalk_none rest

theorem looseNull_iff {o : Option Val} :
    looseNull o = true ↔ o = none ∨ o = some Val.null := by
  rcases o with _ | v
  · simp [looseNull]
  · rcases v with _ | _ | _ | _ | _ | _ <;> simp [looseNull]

theorem existWalk_eq_getPath :
    ∀ (path : List String) (fs : List (String × Val)),
      cleanPath (Val.obj fs) path = true →
      existWalk (some (Val.obj fs)) path = getPath? (Val.obj fs) path
  | [], _, _ => rfl
  | p :: rest, fs, hclean => by
    unfold existWalk getPath?
    rw [if_pos (show truthy (Val.obj fs) = true from rfl)]
    cases hw : getField? (Val.obj fs) p with
    | none => exact existWalk_none rest
    | some w =>
      cases rest with
      | nil => rfl
      | cons q rest' =>
        unfold cleanPath at hclean
        rw [hw] at hclean
        cases w with
        | obj wfs => exact existWalk_eq_getPath (q :: rest') wfs hclean
        | null => exact absurd hclean (by simp)
        | bool b => exact absurd hclean (by simp)
        | num n => exact absurd hclean (by simp)
        | str s => exact absurd hclean (by simp)
        | arr xs => exact absurd hclean (by simp)

theorem copyPath_eq_setPath :
    ∀ (path : List String) (src dst w : Val), getPath? src path = some w →
      copyPath src dst path = setPath dst path w
  | [], src, dst, w, h => by
    unfold getPath? at h
    injection h with h
    rfl
  | [last], src, dst, w, h => by
    unfold getPath? at h
    cases hw : getField? src last with
    | none =>
      rw [hw] at h
      exact absurd h (by simp)
    | some w' =>
      rw [hw] at h
      unfold getPath? at h
      injection h with h
      subst h
      unfold copyPath setPath
      rw [hw]
  | p :: q :: rest, src, dst, w, h => by
    unfold getPath? at h
    cases hw : getField? src p with
    | none =>
      rw [hw] at h
      exact absurd h (by simp)
    | some w1 =>
      rw [hw] at h
      unfold copyPath setPath
      rw [hw]
      dsimp only [Option.getD]
      rw [copyPath_eq_setPath (q :: rest) w1 _ w h]

theorem includeItem_eq_specProject (fields : List String) (fs : List (String × Val))
    (hclean : ∀ f ∈ fields, cleanPath (Val.obj fs) (splitPath f) = true) :
    includeItem fields (Val.obj fs) =
      specProject (Val.obj fs) (fields.map splitPath) := by
  unfold includeItem specProject
  rw [List.foldl_map]
  refine List.foldl_ext _ _ _ ?_
  intro acc f hf
  dsimp only
  rw [existWalk_eq_getPath (splitPath f) fs (hclean f hf)]
  cases hp : getPath? (Val.obj fs) (splitPath f) with
  | none =>
    rw [if_pos (looseNull_iff.mpr (Or.inl rfl))]
  | some w =>
    by_cases hnull : w = Val.null
    · subst hnull
      rw [if_pos (looseNull_iff.mpr (Or.inr rfl))]
      dsimp only
      rw [if_pos rfl]
    · rw [if_neg (by rw [looseNull_iff]; push_neg; exact ⟨by simp, by simp [hnull]⟩)]
      dsimp only
      rw [if_neg hnull]
      exact copyPath_eq_setPath (splitPath f) _ acc w hp

theorem excludeItem_eq_specExclude (fields : List String) (item : Val) :
    excludeItem fields item = specExclude item (fields.map splitPath) := by
  unfold excludeItem specExclude
  rw [List.foldl_map]

/-- C4 (amended): for a non-empty `options.fields` mapping, projection
runs in inclusion mode exactly when the first listed field's value is
*the number 1* (strict `=== 1`, not merely truthy — see the
counterexample); inclusion mode then produces, for each document, the
spec-side projection containing exactly the listed dotted paths that
exist in the source (null-valued and missing paths skipped, intermediate
objects preserved) plus the id field; otherwise exclusion mode
deep-copies each document and deletes the listed dotted paths.  Stated
for object documents whose projected-path interiors are objects
(`cleanPath`), the regime the spec describes. -/
theorem filterFields_spec (items : List Val) (fields : List (String × Val))
    (hne : fields ≠ [])
    (hclean : ∀ item ∈ items, (∃ fs, item = Val.obj fs) ∧
      ∀ f ∈ fields.map Prod.fst ++ ["_id"], cleanPath item (splitPath f) = true) :
    filterFields items fields =
      items.map (fun item =>
        if (fields.map Prod.snd).head? = some (Val.num 1) then
          specProject item ((fields.map Prod.fst ++ ["_id"]).map splitPath)
        else specExclude item ((fields.map Prod.fst).map splitPath)) := by
  unfold filterFields
  rw [if_neg (by simpa [List.length_eq_zero] using hne)]
  refine List.map_congr_left ?_
  intro item hitem
  by_cases hmode : (fields.map Prod.snd).head? = some (Val.num 1)
  · rw [if_pos hmode, if_pos hmode]
    obtain ⟨⟨fs, rfl⟩, hcl⟩ := hclean item hitem
    exact includeItem_eq_specProject _ fs hcl
  · rw [if_neg hmode, if_neg hmode]
    exact excludeItem_eq_specExclude _ item

/-- Witness for C4 at a concrete inclusion-mode projection of the dotted
path `a.b`. -/
theorem filterFields_spec_witness :
    filterFields
        [.obj [("_id", .str "x"), ("a", .obj [("b", .num 5), ("z", .num 9)]), ("c", .num 7)]]
        [("a.b", .num 1)] =
      [.obj [("_id", .str "x"), ("a", .obj [("b", .num 5), ("z", .num 9)]),
        ("c", .num 7)]].map (fun item =>
        if ([("a.b", Val.num 1)].map Prod.snd).head? = some (Val.num 1) then
          specProject item (([("a.b", Val.num 1)].map Prod.fst ++ ["_id"]).map splitPath)
        else specExclude item (([("a.b", Val.num 1)].map Prod.fst).map splitPath)) :=
  filterFields_spec
    [.obj [("_id", .str "x"), ("a", .obj [("b", .num 5), ("z", .num 9)]), ("c", .num 7)]]
    [("a.b", .num 1)] (by decide)
    (by
      intro item hitem
      rw [show item = Val.obj [("_id", .str "x"), ("a", .obj [("b", .num 5), ("z", .num 9)]),
        ("c", .num 7)] from by simpa using hitem]
      exact ⟨⟨_, rfl⟩, by decide⟩)

/-- C4 counterexample: with `fields = {a: 2}` the first listed value is
truthy but not the number 1; the claim predicts inclusion mode (keep
exactly `a` and `_id`), but the code's strict `=== 1` test selects
EXCLUSION mode and deletes `a`. -/
theorem filterFields_mode_counterexample :
    filterFields [.obj [("_id", .str "x"), ("a", .num 5), ("b", .num 6)]] [("a", .num 2)] =
      [.obj [("_id", .str "x"), ("b", .num 6)]] ∧
    truthy (.num 2) = true ∧
    [.obj [("_id", .str "x"), ("b", .num 6)]] ≠
      [specProject (.obj [("_id", .str "x"), ("a", .num 5), ("b", .num 6)])
        [["a"], ["_id"]]] := by
  decide
